import Mathlib

/-!
Verification of the Sentinel Zanzibar-style authorization service.

The definitions below are a shallow embedding of the Rust sources under
`src/back/sentinel/src/`.  Pure functions become Lean functions; the
recursive permission evaluator (which threads a mutable `visited` set)
becomes explicit state passing with a fuel parameter, and stabilisation
of the result once the fuel exceeds the number of distinct canonical
keys is proved separately.  The tuple store (ScyllaDB) is modelled as a
list of tuples with the equality filters used by the actual CQL queries.
-/

namespace Sentinel

/-! ## permission_hierarchy.rs -/

/-- `PermissionHierarchy::new` level map (`levels`): relation name to level,
`get_level` returns 0 for unknown names. -/
def get_level (permission : String) : Nat :=
  if permission == "viewer" then 1
  else if permission == "commenter" then 2
  else if permission == "editor" then 3
  else if permission == "admin" then 4
  else if permission == "owner" then 5
  else 0

/-- `PermissionHierarchy::can_access`: `user_level >= required_level`. -/
def can_access (user_permission required_permission : String) : Bool :=
  decide (get_level user_permission ≥ get_level required_permission)

/-- The `inheritance` map built in `PermissionHierarchy::new`
(lower keys map to the list of permissions they grant). -/
def inheritance (permission : String) : Option (List String) :=
  if permission == "owner" then some ["admin", "editor", "commenter", "viewer"]
  else if permission == "admin" then some ["editor", "commenter", "viewer"]
  else if permission == "editor" then some ["commenter", "viewer"]
  else if permission == "commenter" then some ["viewer"]
  else if permission == "viewer" then some []
  else none

/-- `PermissionHierarchy::get_inherited_permissions`: the permission itself
followed by the entries of the `inheritance` map (empty for unknown names). -/
def get_inherited_permissions (permission : String) : List String :=
  permission :: (inheritance permission).getD []

/-- `PermissionHierarchy::includes`. -/
def includes (higher_permission lower_permission : String) : Bool :=
  if higher_permission == lower_permission then true
  else match inheritance higher_permission with
    | some inherited => inherited.contains lower_permission
    | none => false

/-- `PermissionHierarchy::is_valid_permission`. -/
def is_valid_permission (permission : String) : Bool :=
  get_level permission != 0

/-! ## models.rs -/

/-- `RelationTuple` (models.rs).  `created_at` is a CqlTimestamp (millis). -/
structure RelationTuple where
  ns : String
  object_id : String
  relation : String
  user_type : String
  user_id : String
  created_at : Int
deriving DecidableEq, Repr

/-- `RelationTuple::is_userset` (models.rs): the subject is a userset iff
`user_type != "user"`. -/
def RelationTuple.is_userset (t : RelationTuple) : Bool :=
  t.user_type != "user"

/-- `RelationTuple::is_direct_user` (models.rs). -/
def RelationTuple.is_direct_user (t : RelationTuple) : Bool :=
  t.user_type == "user"

/-- `CheckRequest` (models.rs); the `zookie` field is carried separately by
the orchestrator model. -/
structure CheckRequest where
  ns : String
  object_id : String
  relation : String
  user_id : String
  user_type : Option String
  zookie : Option String
deriving DecidableEq, Repr

/-! ## tuple_store.rs

The ScyllaDB-backed store is modelled as a list of rows; each query
becomes the equality filter of the corresponding CQL `WHERE` clause. -/

/-- `ScyllaTupleStore::find_direct_tuple`: equality lookup on the five key
columns (`created_at` is not part of the key). -/
def find_direct_tuple (store : List RelationTuple)
    (ns object_id relation user_type user_id : String) : Option RelationTuple :=
  store.find? fun t =>
    t.ns == ns && t.object_id == object_id && t.relation == relation &&
    t.user_type == user_type && t.user_id == user_id

/-- `ScyllaTupleStore::find_tuples_by_object_relation`: all rows on
`(namespace, object_id, relation)`. -/
def find_tuples_by_object_relation (store : List RelationTuple)
    (ns object_id relation : String) : List RelationTuple :=
  store.filter fun t =>
    t.ns == ns && t.object_id == object_id && t.relation == relation

/-! ## permission_checker.rs : the recursive evaluator -/

/-- The canonical check key `format!("{}:{}#{}@{}:{}", ...)` used for the
per-invocation `visited` set. -/
def canonicalKey (ns object_id relation user_type user_id : String) : String :=
  ns ++ ":" ++ object_id ++ "#" ++ relation ++ "@" ++ user_type ++ ":" ++ user_id

/-- Rust `str::split_once` on a list of characters. -/
def splitOnceAux (sep : Char) : List Char → Option (List Char × List Char)
  | [] => none
  | c :: rest =>
    if c == sep then some ([], rest)
    else (splitOnceAux sep rest).map fun p => (c :: p.1, p.2)

/-- Rust `str::split_once`. -/
def splitOnce (s : String) (sep : Char) : Option (String × String) :=
  (splitOnceAux sep s.data).map fun p => (⟨p.1⟩, ⟨p.2⟩)

/-- The userset pointer parse in `check_userset_permissions`:
`user_id.split_once(':')` then `split_once('#')` on the remainder. -/
def parseUserset (user_id : String) : Option (String × String × String) :=
  match splitOnce user_id ':' with
  | none => none
  | some (userset_namespace, rest) =>
    match splitOnce rest '#' with
    | none => none
    | some (userset_object, userset_relation) =>
      some (userset_namespace, userset_object, userset_relation)

/-- `check_permission_recursive` / `check_inherited_permissions` /
`check_userset_permissions`, with the shared `&mut` recursion state made
explicit: the `visited` set is threaded through and returned, and a fuel
parameter replaces the implicit call-stack (fuel 0 answers `false`; the
stabilisation theorems below show any fuel at least the number of distinct
canonical keys gives the fuel-free behaviour of the source).  The
`PermissionCheckResult` diagnostic accumulator does not influence the
returned boolean and is not modelled. -/
def checkRec (store : List RelationTuple) :
    Nat → String → String → String → String → String →
    List String → Bool × List String
  | 0, _, _, _, _, _, visited => (false, visited)
  | fuel + 1, ns, object_id, relation, user_type, user_id, visited =>
    let check_key := canonicalKey ns object_id relation user_type user_id
    if visited.contains check_key then (false, visited)
    else
      let visited1 := check_key :: visited
      if (find_direct_tuple store ns object_id relation user_type user_id).isSome then
        (true, visited1)
      else
        let inh := (get_inherited_permissions relation).foldl
          (fun acc higher_permission =>
            if acc.1 then acc
            else checkRec store fuel ns object_id higher_permission user_type user_id acc.2)
          (false, visited1)
        if inh.1 then (true, inh.2)
        else
          (find_tuples_by_object_relation store ns object_id relation).foldl
            (fun acc t =>
              if acc.1 then acc
              else if t.user_type == "userset" then
                match parseUserset t.user_id with
                | some (userset_namespace, userset_object, userset_relation) =>
                  checkRec store fuel userset_namespace userset_object userset_relation
                    user_type user_id acc.2
                | none => acc
              else acc)
            (false, inh.2)
  termination_by structural fuel => fuel

/-! ## Canonical-key universe and termination bound

`checkRec` only ever recurses into triples `(namespace, object_id, relation)`
drawn from: the root triple, the five fixed relation names (via the
inheritance lists), and the userset pointers parsed from rows of the store.
A finite triple set closed under those edges therefore bounds the distinct
canonical keys a top-level check can visit. -/

/-- Userset successor triples of one evaluator node: the parsed pointers of
the `user_type == "userset"` rows on `(ns, object_id, relation)`. -/
def usersetTargetsOf (store : List RelationTuple) (ns object_id relation : String) :
    List (String × String × String) :=
  (find_tuples_by_object_relation store ns object_id relation).filterMap fun t =>
    if t.user_type == "userset" then parseUserset t.user_id else none

/-- All userset pointers of the store (a superset of every node's targets). -/
def usersetTargets (store : List RelationTuple) : List (String × String × String) :=
  store.filterMap fun t =>
    if t.user_type == "userset" then parseUserset t.user_id else none

/-- A triple set closed under the evaluator's inherited and userset edges. -/
def evalClosed (store : List RelationTuple) (K : List (String × String × String)) : Prop :=
  ∀ p ∈ K, (∀ r ∈ get_inherited_permissions p.2.2, (p.1, p.2.1, r) ∈ K) ∧
    (∀ q ∈ usersetTargetsOf store p.1 p.2.1 p.2.2, q ∈ K)

instance (store : List RelationTuple) (K : List (String × String × String)) :
    Decidable (evalClosed store K) := by
  unfold evalClosed; infer_instance

/-- The distinct canonical keys of a triple set for a fixed subject. -/
def keysOf (K : List (String × String × String)) (user_type user_id : String) :
    Finset String :=
  (K.map fun p => canonicalKey p.1 p.2.1 p.2.2 user_type user_id).toFinset

/-- How many canonical keys of `K` are not yet in the visited set. -/
def unvisitedCount (K : List (String × String × String)) (user_type user_id : String)
    (visited : List String) : Nat :=
  ((keysOf K user_type user_id).filter fun k => k ∉ visited).card

/-- A concrete finite closed universe for a root triple: every namespace and
object either of the root or of a userset pointer, crossed with the root
relation, the five fixed relations, and the pointer relations. -/
def keyUniverse (store : List RelationTuple) (ns object_id relation : String) :
    List (String × String × String) :=
  let targets := usersetTargets store
  let nsObjs := (ns, object_id) :: targets.map fun q => (q.1, q.2.1)
  let rels := relation :: "viewer" :: "commenter" :: "editor" :: "admin" :: "owner" ::
    targets.map fun q => q.2.2
  nsObjs.flatMap fun p => rels.map fun r => (p.1, p.2, r)

/-- Fuel used by the top-level check: the size of the concrete universe. -/
def checkFuel (store : List RelationTuple) (ns object_id relation : String) : Nat :=
  (keyUniverse store ns object_id relation).length

/-- `check_permission_uncached` (permission_checker.rs): fresh `visited`
set, `user_type` defaulting to `"user"`, then the recursive check. -/
def check_permission_uncached (store : List RelationTuple) (request : CheckRequest) : Bool :=
  let user_type := request.user_type.getD "user"
  (checkRec store (checkFuel store request.ns request.object_id request.relation)
    request.ns request.object_id request.relation user_type request.user_id []).1

/-! ## errors.rs -/

/-- The variants of `SentinelError`; messages and sources are not modelled. -/
inductive SentinelErrorKind
  | database
  | validation
  | permission
  | serialization
  | cache
  | internal
deriving DecidableEq, Repr

/-! ## Base64 (the `base64` crate's STANDARD engine, used by zookie.rs)

Modelled from the spec: "Wire form: base64(utf-8 JSON)" — the crate itself
is a dependency, not part of this repository.  Bytes are `Nat`s below 256. -/

def b64Alphabet : List Char :=
  "ABCDEFGHIJKLMNOPQRSTUVWXYZabcdefghijklmnopqrstuvwxyz0123456789+/".data

def b64Char (n : Nat) : Char := b64Alphabet.getD n 'A'

def b64Val (c : Char) : Option Nat := b64Alphabet.findIdx? (· == c)

/-- RFC 4648 standard encoding with `=` padding. -/
def b64EncodeList : List Nat → List Char
  | b1 :: b2 :: b3 :: rest =>
    let w := b1 * 65536 + b2 * 256 + b3
    b64Char (w / 262144) :: b64Char (w / 4096 % 64) :: b64Char (w / 64 % 64) ::
      b64Char (w % 64) :: b64EncodeList rest
  | [b1, b2] =>
    let w := b1 * 65536 + b2 * 256
    [b64Char (w / 262144), b64Char (w / 4096 % 64), b64Char (w / 64 % 64), '=']
  | [b1] =>
    let w := b1 * 65536
    [b64Char (w / 262144), b64Char (w / 4096 % 64), '=', '=']
  | [] => []

/-- Standard decoding: padded 4-char groups, canonical padding, zero
trailing bits required (the crate's default decode configuration). -/
def b64DecodeList : List Char → Option (List Nat)
  | [] => some []
  | c1 :: c2 :: c3 :: c4 :: rest => do
    let v1 ← b64Val c1
    let v2 ← b64Val c2
    if c3 = '=' then
      if c4 = '=' ∧ rest = [] ∧ v2 % 16 = 0 then some [v1 * 4 + v2 / 16] else none
    else do
      let v3 ← b64Val c3
      if c4 = '=' then
        if rest = [] ∧ v3 % 4 = 0 then
          some [v1 * 4 + v2 / 16, v2 % 16 * 16 + v3 / 4]
        else none
      else do
        let v4 ← b64Val c4
        let tail ← b64DecodeList rest
        some ((v1 * 4 + v2 / 16) :: (v2 % 16 * 16 + v3 / 4) :: (v3 % 4 * 64 + v4) :: tail)
  | _ => none

/-! ## UTF-8 (`String::as_bytes` / `String::from_utf8` in zookie.rs)

Modelled from the spec: "Wire form: base64(utf-8 JSON)".  A Rust `String`
is a sequence of Unicode scalar values, exactly Lean's `Char`;
`from_utf8` rejects invalid leads, bad continuations, overlong forms,
surrogates, and out-of-range values. -/

def utf8EncodeChar (c : Char) : List Nat :=
  let n := c.toNat
  if n < 128 then [n]
  else if n < 2048 then [192 + n / 64, 128 + n % 64]
  else if n < 65536 then [224 + n / 4096, 128 + n / 64 % 64, 128 + n % 64]
  else [240 + n / 262144, 128 + n / 4096 % 64, 128 + n / 64 % 64, 128 + n % 64]

def utf8EncodeChars (cs : List Char) : List Nat := cs.flatMap utf8EncodeChar

/-- One scalar of a UTF-8 stream: 2-byte sequences. -/
def utf8Two (b : Nat) : List Nat → Option (Char × List Nat)
  | b2 :: rest2 =>
    if 128 ≤ b2 ∧ b2 < 192 then some (Char.ofNat ((b - 192) * 64 + (b2 - 128)), rest2)
    else none
  | [] => none

/-- One scalar of a UTF-8 stream: 3-byte sequences (overlong and surrogate
forms rejected). -/
def utf8Three (b : Nat) : List Nat → Option (Char × List Nat)
  | b2 :: b3 :: rest3 =>
    let n := (b - 224) * 4096 + (b2 - 128) * 64 + (b3 - 128)
    if (128 ≤ b2 ∧ b2 < 192) ∧ (128 ≤ b3 ∧ b3 < 192) ∧ 2048 ≤ n ∧
        ¬(55296 ≤ n ∧ n < 57344) then
      some (Char.ofNat n, rest3)
    else none
  | _ => none

/-- One scalar of a UTF-8 stream: 4-byte sequences (overlong and
out-of-range forms rejected). -/
def utf8Four (b : Nat) : List Nat → Option (Char × List Nat)
  | b2 :: b3 :: b4 :: rest4 =>
    let n := (b - 240) * 262144 + (b2 - 128) * 4096 + (b3 - 128) * 64 + (b4 - 128)
    if (128 ≤ b2 ∧ b2 < 192) ∧ (128 ≤ b3 ∧ b3 < 192) ∧ (128 ≤ b4 ∧ b4 < 192) ∧
        65536 ≤ n ∧ n < 1114112 then
      some (Char.ofNat n, rest4)
    else none
  | _ => none

/-- Decode one Unicode scalar from the front of a byte stream, rejecting
invalid leads (128-193, 245-255), bad continuations, overlong encodings,
surrogates, and values above U+10FFFF — the checks `String::from_utf8`
performs. -/
def utf8DecodeStep : List Nat → Option (Char × List Nat)
  | [] => none
  | b :: rest =>
    if b < 128 then some (Char.ofNat b, rest)
    else if b < 194 then none
    else if b < 224 then utf8Two b rest
    else if b < 240 then utf8Three b rest
    else if b < 245 then utf8Four b rest
    else none

/-- Run `utf8DecodeStep` to exhaustion; each step consumes at least one
byte, so the list length is sufficient fuel. -/
def utf8DecodeAux : Nat → List Nat → Option (List Char)
  | _, [] => some []
  | 0, _ :: _ => none
  | fuel + 1, b :: rest =>
    match utf8DecodeStep (b :: rest) with
    | some (c, rest2) => (utf8DecodeAux fuel rest2).map (c :: ·)
    | none => none

/-- `String::from_utf8`. -/
def utf8Decode (bs : List Nat) : Option (List Char) := utf8DecodeAux bs.length bs

/-! ## JSON for the zookie wire format (serde_json, used by zookie.rs)

Modelled from the spec: serde_json serialisation of the `Zookie` struct —
the library is a dependency, not part of this repository.  The encoder
produces serde_json's canonical output (fields in declaration order,
strings escaped with `\"`, `\\`, `\b`, `\t`, `\n`, `\f`, `\r` and
`\u00XX` lowercase hex for other control characters, `Option` as `null`);
the parser accepts that grammar. -/

def hexDigitChar (n : Nat) : Char := "0123456789abcdef".data.getD n '0'

def hexVal (c : Char) : Option Nat :=
  match "0123456789abcdef".data.findIdx? (· == c) with
  | some n => some n
  | none => ("ABCDEF".data.findIdx? (· == c)).map (· + 10)

def escapeChar (c : Char) : List Char :=
  if c = '"' then ['\\', '"']
  else if c = '\\' then ['\\', '\\']
  else if c.toNat = 8 then ['\\', 'b']
  else if c.toNat = 9 then ['\\', 't']
  else if c.toNat = 10 then ['\\', 'n']
  else if c.toNat = 12 then ['\\', 'f']
  else if c.toNat = 13 then ['\\', 'r']
  else if c.toNat < 32 then
    ['\\', 'u', '0', '0', hexDigitChar (c.toNat / 16), hexDigitChar (c.toNat % 16)]
  else [c]

/-- A JSON string literal: quote, escaped content, quote. -/
def jsonStringChars (s : String) : List Char :=
  '"' :: (s.data.flatMap escapeChar ++ ['"'])

def natDigitsAux : Nat → Nat → List Char
  | 0, _ => []
  | fuel + 1, n =>
    if n < 10 then [Char.ofNat (48 + n)]
    else natDigitsAux fuel (n / 10) ++ [Char.ofNat (48 + n % 10)]

def natToChars (n : Nat) : List Char := natDigitsAux (n + 1) n

/-- itoa-style minimal decimal rendering of a signed 64-bit integer. -/
def jsonIntChars (i : Int) : List Char :=
  if i < 0 then '-' :: natToChars (-i).toNat else natToChars i.toNat

def isDigitChar (c : Char) : Bool := 48 ≤ c.toNat && c.toNat ≤ 57

def parseNatAux : List Char → Nat → Nat × List Char
  | [], acc => (acc, [])
  | c :: rest, acc =>
    if isDigitChar c then parseNatAux rest (acc * 10 + (c.toNat - 48))
    else (acc, c :: rest)

def parseNegInt : List Char → Option (Int × List Char)
  | [] => none
  | c2 :: rest2 =>
    if isDigitChar c2 then
      let p := parseNatAux (c2 :: rest2) 0
      some (-(p.1 : Int), p.2)
    else none

def parseJsonInt : List Char → Option (Int × List Char)
  | [] => none
  | c :: rest =>
    if c = '-' then parseNegInt rest
    else if isDigitChar c then
      let p := parseNatAux (c :: rest) 0
      some ((p.1 : Int), p.2)
    else none

/-- The four hex digits of a `\\uXXXX` escape. -/
def parseUEscape : List Char → Option (Char × List Char)
  | h1 :: h2 :: h3 :: h4 :: rest3 => do
    let d1 ← hexVal h1
    let d2 ← hexVal h2
    let d3 ← hexVal h3
    let d4 ← hexVal h4
    let n := d1 * 4096 + d2 * 256 + d3 * 16 + d4
    if n < 55296 ∨ 57344 ≤ n then some (Char.ofNat n, rest3)
    else none
  | _ => none

/-- The character after a backslash in a JSON string. -/
def unescapeEsc : List Char → Option (Char × List Char)
  | [] => none
  | e :: rest2 =>
    if e = '"' then some ('"', rest2)
    else if e = '\\' then some ('\\', rest2)
    else if e = '/' then some ('/', rest2)
    else if e = 'b' then some (Char.ofNat 8, rest2)
    else if e = 'f' then some (Char.ofNat 12, rest2)
    else if e = 'n' then some (Char.ofNat 10, rest2)
    else if e = 'r' then some (Char.ofNat 13, rest2)
    else if e = 't' then some (Char.ofNat 9, rest2)
    else if e = 'u' then parseUEscape rest2
    else none

/-- One content character of a JSON string (the input does not start with
the closing quote). -/
def unescapeStep : List Char → Option (Char × List Char)
  | [] => none
  | c :: rest => if c = '\\' then unescapeEsc rest else some (c, rest)

/-- Parse the remainder of a JSON string literal (after the opening quote)
to the closing quote; each step consumes at least one character, so the
input length is sufficient fuel. -/
def parseStringAux : Nat → List Char → Option (List Char × List Char)
  | _, [] => none
  | 0, _ :: _ => none
  | fuel + 1, c :: rest =>
    if c = '"' then some ([], rest)
    else
      match unescapeStep (c :: rest) with
      | some (d, rest2) => (parseStringAux fuel rest2).map fun p => (d :: p.1, p.2)
      | none => none

def parseStringChars (s : List Char) : Option (List Char × List Char) :=
  parseStringAux s.length s

/-- Expect a literal token and return the rest. -/
def parseLit : List Char → List Char → Option (List Char)
  | [], s => some s
  | l :: ls, c :: cs => if c = l then parseLit ls cs else none
  | _ :: _, [] => none

/-! ## zookie.rs : data model and wire format -/

/-- `ZookieMetadata` (zookie.rs). -/
structure ZookieMetadata where
  node_id : Option String
  transaction_id : Option String
deriving DecidableEq, Repr

/-- `Zookie` (zookie.rs): a monotonic-timestamp consistency token. -/
structure Zookie where
  timestamp_micros : Int
  metadata : Option ZookieMetadata
deriving DecidableEq, Repr

/-- `Zookie::from_timestamp`. -/
def Zookie.from_timestamp (timestamp_micros : Int) : Zookie :=
  { timestamp_micros := timestamp_micros, metadata := none }

/-- `Zookie::with_metadata`; the wall-clock read `Utc::now()` inside it is
passed explicitly. -/
def Zookie.with_metadata (now_micros : Int) (metadata : ZookieMetadata) : Zookie :=
  { timestamp_micros := now_micros, metadata := some metadata }

/-- `Zookie::is_newer_than`. -/
def Zookie.is_newer_than (z other : Zookie) : Bool :=
  z.timestamp_micros > other.timestamp_micros

/-- `Zookie::is_at_least`. -/
def Zookie.is_at_least (z other : Zookie) : Bool :=
  z.timestamp_micros ≥ other.timestamp_micros

def jsonOptStringChars : Option String → List Char
  | none => "null".data
  | some s => jsonStringChars s

def metadataJsonChars (m : ZookieMetadata) : List Char :=
  "\x7b\"node_id\":".data ++ jsonOptStringChars m.node_id ++
    ",\"transaction_id\":".data ++ jsonOptStringChars m.transaction_id ++ "\x7d".data

/-- serde_json's output for a `Zookie` value. -/
def zookieJsonChars (z : Zookie) : List Char :=
  "\x7b\"timestamp_micros\":".data ++ jsonIntChars z.timestamp_micros ++
    ",\"metadata\":".data ++
    (match z.metadata with
      | none => "null".data
      | some m => metadataJsonChars m) ++ "\x7d".data

def parseOptString (s : List Char) : Option (Option String × List Char) :=
  match parseLit ("null".data) s with
  | some rest => some (none, rest)
  | none =>
    match s with
    | c :: rest =>
      if c = '"' then (parseStringChars rest).map fun p => (some ⟨p.1⟩, p.2)
      else none
    | [] => none

def parseMetadata (s : List Char) : Option (Option ZookieMetadata × List Char) :=
  match parseLit ("null".data) s with
  | some rest => some (none, rest)
  | none => do
    let s1 ← parseLit ("\x7b\"node_id\":".data) s
    let (node_id, s2) ← parseOptString s1
    let s3 ← parseLit (",\"transaction_id\":".data) s2
    let (transaction_id, s4) ← parseOptString s3
    let s5 ← parseLit ("\x7d".data) s4
    some (some ⟨node_id, transaction_id⟩, s5)

/-- serde_json's parse of a `Zookie`, specialised to the canonical field
order the encoder emits. -/
def parseZookieChars (s : List Char) : Option (Zookie × List Char) := do
  let s1 ← parseLit ("\x7b\"timestamp_micros\":".data) s
  let (timestamp_micros, s2) ← parseJsonInt s1
  let s3 ← parseLit (",\"metadata\":".data) s2
  let (metadata, s4) ← parseMetadata s3
  let s5 ← parseLit ("\x7d".data) s4
  some (⟨timestamp_micros, metadata⟩, s5)

/-- `Zookie::to_string`: base64 of the UTF-8 JSON serialisation.  The
source wraps this in a `Result` whose error case (serde_json failure)
cannot occur for this struct, so the model is total. -/
def Zookie.to_string (z : Zookie) : String :=
  ⟨b64EncodeList (utf8EncodeChars (zookieJsonChars z))⟩

/-- `Zookie::from_string`: base64 decode, UTF-8 decode, JSON parse; every
failure is a validation error. -/
def Zookie.from_string (encoded : String) : Except SentinelErrorKind Zookie :=
  match b64DecodeList encoded.data with
  | none => .error .validation
  | some bytes =>
    match utf8Decode bytes with
    | none => .error .validation
    | some chars =>
      match parseZookieChars chars with
      | some (z, []) => .ok z
      | _ => .error .validation

/-! ## zookie.rs : issuance and validation -/

/-- The outcome of `ZookieManager::generate_zookie`, with the dead
`final_timestamp` computation kept visible.  `now_micros` is the clock
read at the top of the function; `metadata_now` the separate clock read
inside `Zookie::with_metadata`; `last_timestamp` the process-wide atomic
counter.  The returned token's timestamp is `metadata_now` — the computed
`final_timestamp` is only logged. -/
structure GenerateResult where
  zookie : Zookie
  final_timestamp : Int
  last_after : Int
deriving DecidableEq, Repr

/-- `ZookieManager::generate_zookie` (zookie.rs:145-168), sequentialised:
`fetch_max` returns the previous counter and stores the max; on the
"same microsecond" branch `fetch_add(1)` bumps the counter. -/
def generate_zookie (last_timestamp now_micros metadata_now : Int)
    (node_id transaction_id : String) : GenerateResult :=
  let prev := last_timestamp
  let stored := max last_timestamp now_micros
  let new_timestamp := max prev now_micros
  let zookie := Zookie.with_metadata metadata_now
    ⟨some node_id, some transaction_id⟩
  if new_timestamp == now_micros then
    { zookie := zookie, final_timestamp := now_micros, last_after := stored }
  else
    { zookie := zookie, final_timestamp := stored + 1, last_after := stored + 1 }

/-- One hour in microseconds (zookie.rs:188). -/
def max_age_micros : Int := 60 * 60 * 1000000

/-- `ZookieManager::validate_and_get_snapshot_time` (zookie.rs:171-204).
`now` is the clock read in the `Some` branch; if no token is supplied the
generate path runs (its internal `cache_latest_zookie` write may fail,
failing the call).  Returns the snapshot zookie and the counter state. -/
def validate_and_get_snapshot_time :
    Option String → Int → Int → Int → Int → String → String →
    Except SentinelErrorKind Unit → Except SentinelErrorKind (Zookie × Int)
  | some zookie_str, now, last_timestamp, _, _, _, _, _ =>
    match Zookie.from_string zookie_str with
    | .error e => .error e
    | .ok requested_zookie =>
      if requested_zookie.timestamp_micros > now then .error .validation
      else if now - requested_zookie.timestamp_micros > max_age_micros then
        .error .validation
      else .ok (requested_zookie, last_timestamp)
  | none, _, last_timestamp, gen_now, gen_metadata_now, node_id, transaction_id,
      cache_set =>
    let r := generate_zookie last_timestamp gen_now gen_metadata_now
      node_id transaction_id
    match cache_set with
    | .ok _ => .ok (r.zookie, r.last_after)
    | .error e => .error e

/-! ## cache.rs : cached check results and the orchestrator -/

/-- `CachedCheckResult` (cache.rs). -/
structure CachedCheckResult where
  allowed : Bool
  cached_at : Int
  original_zookie : String
deriving DecidableEq, Repr

/-- `CheckResponse` (models.rs). -/
structure CheckResponse where
  allowed : Bool
  zookie : String
deriving DecidableEq, Repr

/-- `PermissionChecker::check_permission` (permission_checker.rs:33-74) with
its collaborators' outcomes as parameters: `snapshot_result` is the zookie
step, `cache_get` the cache lookup, `cached_parse` the
`CachedCheckResult::from_json` parse of a hit payload, `eval_result` the
uncached evaluation against the tuple store, and `cache_set` the
post-evaluation best-effort cache write, whose outcome the source
discards. -/
def check_permission_pipeline (snapshot_result : Except SentinelErrorKind Zookie)
    (cache_get : Except SentinelErrorKind (Option String))
    (cached_parse : String → Except SentinelErrorKind CachedCheckResult)
    (eval_result : Except SentinelErrorKind Bool)
    (cache_set : Except SentinelErrorKind Unit) :
    Except SentinelErrorKind CheckResponse :=
  match snapshot_result with
  | .error e => .error e
  | .ok snapshot_zookie =>
    let proceed : Except SentinelErrorKind CheckResponse :=
      match eval_result with
      | .error e => .error e
      | .ok allowed =>
        match cache_set with
        | .ok _ => .ok ⟨allowed, snapshot_zookie.to_string⟩
        | .error _ => .ok ⟨allowed, snapshot_zookie.to_string⟩
    match cache_get with
    | .ok (some cached_json) =>
      match cached_parse cached_json with
      | .ok cached_result => .ok ⟨cached_result.allowed, snapshot_zookie.to_string⟩
      | .error _ => proceed
    | .ok none => proceed
    | .error _ => proceed

/-- The orchestrator with the evaluation tied to the embedded evaluator. -/
def check_permission (store : List RelationTuple) (request : CheckRequest)
    (snapshot_result : Except SentinelErrorKind Zookie)
    (cache_get : Except SentinelErrorKind (Option String))
    (cached_parse : String → Except SentinelErrorKind CachedCheckResult)
    (cache_set : Except SentinelErrorKind Unit) :
    Except SentinelErrorKind CheckResponse :=
  check_permission_pipeline snapshot_result cache_get cached_parse
    (.ok (check_permission_uncached store request)) cache_set

/-! ## permission_checker.rs : batch evaluator -/

/-- `CacheKeyBuilder::check_permission_key` (cache.rs). -/
def check_permission_key (request : CheckRequest) : String :=
  "check:" ++ request.ns ++ ":" ++ request.object_id ++ "#" ++ request.relation ++
    "@" ++ request.user_type.getD "user" ++ ":" ++ request.user_id

/-- The `request_info` diagnostic string built in
`batch_check_permissions`. -/
def batch_request_info (r : CheckRequest) : String :=
  r.ns ++ ":" ++ r.object_id ++ "#" ++ r.relation ++ "@" ++ r.user_id

/-- `BatchCheckItem` (models.rs). -/
structure BatchCheckItem where
  request_index : Nat
  allowed : Bool
  request_info : String
deriving DecidableEq, Repr

/-- The `unique_requests` deduplication map of `batch_check_permissions`,
as a key-ordered association list (a deterministic linearisation of the
`HashMap`): key, first request with that key, original indices in
encounter order. -/
def insertRequest (acc : List (String × CheckRequest × List Nat))
    (entry : Nat × CheckRequest) : List (String × CheckRequest × List Nat) :=
  let key := check_permission_key entry.2
  if acc.any fun e => e.1 == key then
    acc.map fun e => if e.1 == key then (e.1, e.2.1, e.2.2 ++ [entry.1]) else e
  else acc ++ [(key, entry.2, [entry.1])]

def unique_requests (checks : List CheckRequest) :
    List (String × CheckRequest × List Nat) :=
  checks.enum.foldl insertRequest []

def insertSorted (x : BatchCheckItem) : List BatchCheckItem → List BatchCheckItem
  | [] => [x]
  | y :: ys =>
    if x.request_index ≤ y.request_index then x :: y :: ys else y :: insertSorted x ys

/-- `sort_by_key(|item| item.request_index)`. -/
def sortItems (l : List BatchCheckItem) : List BatchCheckItem :=
  l.foldr insertSorted []

/-- `batch_check_permissions` (permission_checker.rs:77-158), sequentialised:
the batch zookie is validated once up front for the response token, then
every unique sub-request runs the full `check_permission` pipeline — which
performs its own `validate_and_get_snapshot_time` on the sub-request's
`zookie` field (generating a fresh token when absent).  Cache lookups are
taken as misses, wall-clock reads are the explicit parameters, and the
zookie counter threads left to right.  Besides the response items and the
response zookie string, the model returns every snapshot zookie that was
selected, in order. -/
def batch_check_permissions (store : List RelationTuple)
    (request_checks : List CheckRequest) (batch_zookie : Option String)
    (now last_timestamp gen_now gen_metadata_now : Int)
    (node_id transaction_id : String) (cache_set : Except SentinelErrorKind Unit) :
    Except SentinelErrorKind (List BatchCheckItem × String × List Zookie) :=
  match validate_and_get_snapshot_time batch_zookie now last_timestamp gen_now
      gen_metadata_now node_id transaction_id cache_set with
  | .error e => .error e
  | .ok (snapshot_zookie, last1) =>
    let groups := unique_requests request_checks
    let folded := groups.foldl
      (fun (st : Int × List Zookie × List BatchCheckItem) g =>
        match validate_and_get_snapshot_time g.2.1.zookie now st.1 gen_now
            gen_metadata_now node_id transaction_id cache_set with
        | .error _ =>
          (st.1, st.2.1, st.2.2 ++ g.2.2.map fun i =>
            ⟨i, false, batch_request_info g.2.1 ++ " (ERROR)"⟩)
        | .ok (sub_snapshot, last2) =>
          (last2, st.2.1 ++ [sub_snapshot], st.2.2 ++ g.2.2.map fun i =>
            ⟨i, check_permission_uncached store g.2.1, batch_request_info g.2.1⟩))
      (last1, [], [])
    .ok (sortItems folded.2.2, snapshot_zookie.to_string,
      snapshot_zookie :: folded.2.1)

/-! ## Evaluator lemmas -/

theorem foldl_visited_subset {α : Type} (step : (Bool × List String) → α → (Bool × List String))
    (hstep : ∀ acc x, acc.2 ⊆ (step acc x).2) :
    ∀ (l : List α) (acc : Bool × List String), acc.2 ⊆ (l.foldl step acc).2 := by
  intro l
  induction l with
  | nil => intro acc x hx; exact hx
  | cons x l ih =>
    intro acc
    exact List.Subset.trans (hstep acc x) (ih (step acc x))

/-- The recursion never removes keys from the visited set. -/
theorem checkRec_visited_subset (store : List RelationTuple) :
    ∀ (fuel : Nat) (ns object_id relation user_type user_id : String)
      (visited : List String),
      visited ⊆ (checkRec store fuel ns object_id relation user_type user_id visited).2 := by
  intro fuel
  induction fuel with
  | zero => intro ns object_id relation user_type user_id visited; simp [checkRec]
  | succ fuel ih =>
    intro ns object_id relation user_type user_id visited
    simp only [checkRec]
    by_cases hc : visited.contains (canonicalKey ns object_id relation user_type user_id) = true
    · rw [if_pos hc]; exact List.Subset.refl _
    · rw [if_neg hc]
      have hin : visited ⊆
          canonicalKey ns object_id relation user_type user_id :: visited :=
        List.subset_cons_self _ _
      by_cases hd : (find_direct_tuple store ns object_id relation user_type user_id).isSome = true
      · rw [if_pos hd]; exact hin
      · rw [if_neg hd]
        have hfold1 : ∀ (l : List String) (acc : Bool × List String),
            acc.2 ⊆ (List.foldl (fun acc higher_permission =>
              if acc.1 = true then acc
              else checkRec store fuel ns object_id higher_permission user_type user_id acc.2)
              acc l).2 := by
          intro l acc
          refine foldl_visited_subset _ ?_ l acc
          intro acc x
          split
          · exact List.Subset.refl _
          · exact ih ns object_id x user_type user_id acc.2
        have hfold2 : ∀ (l : List RelationTuple) (acc : Bool × List String),
            acc.2 ⊆ (List.foldl (fun acc t =>
              if acc.1 = true then acc
              else if (t.user_type == "userset") = true then
                match parseUserset t.user_id with
                | some (userset_namespace, userset_object, userset_relation) =>
                  checkRec store fuel userset_namespace userset_object userset_relation
                    user_type user_id acc.2
                | none => acc
              else acc) acc l).2 := by
          intro l acc
          refine foldl_visited_subset _ ?_ l acc
          intro acc t
          split
          · exact List.Subset.refl _
          · split
            · split
              · next a b c heq => exact ih a b c user_type user_id acc.2
              · exact List.Subset.refl _
            · exact List.Subset.refl _
        split
        · next h =>
          exact List.Subset.trans hin (hfold1 (get_inherited_permissions relation)
            (false, canonicalKey ns object_id relation user_type user_id :: visited))
        · next h =>
          exact List.Subset.trans (List.Subset.trans hin
            (hfold1 (get_inherited_permissions relation)
              (false, canonicalKey ns object_id relation user_type user_id :: visited)))
            (hfold2 (find_tuples_by_object_relation store ns object_id relation) (false, _))

theorem mem_keysOf {K : List (String × String × String)}
    {ns object_id relation user_type user_id : String}
    (h : (ns, object_id, relation) ∈ K) :
    canonicalKey ns object_id relation user_type user_id ∈ keysOf K user_type user_id := by
  unfold keysOf
  rw [List.mem_toFinset, List.mem_map]
  exact ⟨(ns, object_id, relation), h, rfl⟩

theorem unvisitedCount_lt_insert {K : List (String × String × String)}
    {user_type user_id key : String} {visited : List String}
    (hk : key ∈ keysOf K user_type user_id) (hv : key ∉ visited) :
    unvisitedCount K user_type user_id (key :: visited) <
      unvisitedCount K user_type user_id visited := by
  unfold unvisitedCount
  refine Finset.card_lt_card ⟨?_, ?_⟩
  · intro x hx
    rw [Finset.mem_filter] at hx ⊢
    exact ⟨hx.1, fun hxv => hx.2 (List.mem_cons_of_mem _ hxv)⟩
  · intro hsub
    have hkey : key ∈ Finset.filter (fun k => k ∉ visited) (keysOf K user_type user_id) :=
      Finset.mem_filter.mpr ⟨hk, hv⟩
    have hkey2 := hsub hkey
    rw [Finset.mem_filter] at hkey2
    exact hkey2.2 (List.mem_cons_self _ _)

theorem unvisitedCount_le_of_subset {K : List (String × String × String)}
    {user_type user_id : String} {v v' : List String} (h : v ⊆ v') :
    unvisitedCount K user_type user_id v' ≤ unvisitedCount K user_type user_id v := by
  unfold unvisitedCount
  refine Finset.card_le_card ?_
  intro x hx
  rw [Finset.mem_filter] at hx ⊢
  exact ⟨hx.1, fun hxv => hx.2 (h hxv)⟩

theorem unvisitedCount_le_length (K : List (String × String × String))
    (user_type user_id : String) (visited : List String) :
    unvisitedCount K user_type user_id visited ≤ K.length := by
  unfold unvisitedCount keysOf
  calc ((((K.map fun p => canonicalKey p.1 p.2.1 p.2.2 user_type user_id)).toFinset.filter
      fun k => k ∉ visited).card)
      ≤ ((K.map fun p => canonicalKey p.1 p.2.1 p.2.2 user_type user_id)).toFinset.card :=
        Finset.card_filter_le _ _
    _ ≤ ((K.map fun p => canonicalKey p.1 p.2.1 p.2.2 user_type user_id)).length :=
        List.toFinset_card_le _
    _ = K.length := List.length_map _ _

theorem mem_of_unvisitedCount_zero {K : List (String × String × String)}
    {user_type user_id key : String} {visited : List String}
    (h : unvisitedCount K user_type user_id visited = 0)
    (hk : key ∈ keysOf K user_type user_id) : key ∈ visited := by
  by_contra hv
  have hkey : key ∈ Finset.filter (fun k => k ∉ visited) (keysOf K user_type user_id) :=
    Finset.mem_filter.mpr ⟨hk, hv⟩
  unfold unvisitedCount at h
  rw [Finset.card_eq_zero] at h
  rw [h] at hkey
  exact absurd hkey (Finset.not_mem_empty _)

/-- Past the number of reachable unvisited canonical keys, fuel is irrelevant:
the fuelled recursion computes the unique fuel-free result of the source. -/
theorem checkRec_fuel_congr (store : List RelationTuple)
    (K : List (String × String × String)) (user_type user_id : String)
    (hK : evalClosed store K) :
    ∀ (f₁ f₂ : Nat) (ns object_id relation : String) (visited : List String),
      (ns, object_id, relation) ∈ K →
      unvisitedCount K user_type user_id visited ≤ f₁ →
      unvisitedCount K user_type user_id visited ≤ f₂ →
      checkRec store f₁ ns object_id relation user_type user_id visited =
        checkRec store f₂ ns object_id relation user_type user_id visited := by
  intro f₁
  induction f₁ with
  | zero =>
    intro f₂ ns object_id relation visited hmem h1 h2
    have hkv : canonicalKey ns object_id relation user_type user_id ∈ visited :=
      mem_of_unvisitedCount_zero (Nat.le_zero.mp h1) (mem_keysOf hmem)
    cases f₂ with
    | zero => rfl
    | succ b =>
      simp only [checkRec]
      rw [if_pos (List.elem_iff.mpr hkv)]
  | succ a ih =>
    intro f₂ ns object_id relation visited hmem h1 h2
    cases f₂ with
    | zero =>
      have hkv : canonicalKey ns object_id relation user_type user_id ∈ visited :=
        mem_of_unvisitedCount_zero (Nat.le_zero.mp h2) (mem_keysOf hmem)
      simp only [checkRec]
      rw [if_pos (List.elem_iff.mpr hkv)]
    | succ b =>
      by_cases hc :
          visited.contains (canonicalKey ns object_id relation user_type user_id) = true
      · simp only [checkRec]; rw [if_pos hc, if_pos hc]
      · have hkv : canonicalKey ns object_id relation user_type user_id ∉ visited :=
          fun h => hc (List.elem_iff.mpr h)
        have hklt := @unvisitedCount_lt_insert K user_type user_id
          (canonicalKey ns object_id relation user_type user_id) visited
          (@mem_keysOf K ns object_id relation user_type user_id hmem) hkv
        have ha' : unvisitedCount K user_type user_id
            (canonicalKey ns object_id relation user_type user_id :: visited) ≤ a := by omega
        have hb' : unvisitedCount K user_type user_id
            (canonicalKey ns object_id relation user_type user_id :: visited) ≤ b := by omega
        simp only [checkRec]
        rw [if_neg hc, if_neg hc]
        by_cases hd : (find_direct_tuple store ns object_id relation user_type user_id).isSome = true
        · rw [if_pos hd, if_pos hd]
        · rw [if_neg hd, if_neg hd]
          have hfold1 : ∀ (l : List String), (∀ r ∈ l, (ns, object_id, r) ∈ K) →
              ∀ (acc : Bool × List String),
                unvisitedCount K user_type user_id acc.2 ≤ a →
                unvisitedCount K user_type user_id acc.2 ≤ b →
                List.foldl (fun acc higher_permission => if acc.1 = true then acc
                  else checkRec store a ns object_id higher_permission user_type user_id acc.2)
                  acc l =
                List.foldl (fun acc higher_permission => if acc.1 = true then acc
                  else checkRec store b ns object_id higher_permission user_type user_id acc.2)
                  acc l ∧
                acc.2 ⊆ (List.foldl (fun acc higher_permission => if acc.1 = true then acc
                  else checkRec store a ns object_id higher_permission user_type user_id acc.2)
                  acc l).2 := by
            intro l
            induction l with
            | nil => intro _ acc _ _; exact ⟨rfl, List.Subset.refl _⟩
            | cons r l ihl =>
              intro hl acc hca hcb
              by_cases hb1 : acc.1 = true
              · simp only [List.foldl_cons, if_pos hb1]
                exact ihl (fun x hx => hl x (List.mem_cons_of_mem _ hx)) acc hca hcb
              · simp only [List.foldl_cons, if_neg hb1]
                have heq := ih b ns object_id r acc.2 (hl r (List.mem_cons_self _ _)) hca hcb
                have hsub : acc.2 ⊆
                    (checkRec store a ns object_id r user_type user_id acc.2).2 :=
                  checkRec_visited_subset store a ns object_id r user_type user_id acc.2
                rw [← heq]
                obtain ⟨he, hs⟩ := ihl (fun x hx => hl x (List.mem_cons_of_mem _ hx))
                  (checkRec store a ns object_id r user_type user_id acc.2)
                  (le_trans (unvisitedCount_le_of_subset hsub) hca)
                  (le_trans (unvisitedCount_le_of_subset hsub) hcb)
                exact ⟨he, List.Subset.trans hsub hs⟩
          have hfold2 : ∀ (l : List RelationTuple),
              (∀ t ∈ l, (t.user_type == "userset") = true →
                ∀ q, parseUserset t.user_id = some q → q ∈ K) →
              ∀ (acc : Bool × List String),
                unvisitedCount K user_type user_id acc.2 ≤ a →
                unvisitedCount K user_type user_id acc.2 ≤ b →
                List.foldl (fun acc t => if acc.1 = true then acc
                  else if (t.user_type == "userset") = true then
                    match parseUserset t.user_id with
                    | some (userset_namespace, userset_object, userset_relation) =>
                      checkRec store a userset_namespace userset_object userset_relation
                        user_type user_id acc.2
                    | none => acc
                  else acc) acc l =
                List.foldl (fun acc t => if acc.1 = true then acc
                  else if (t.user_type == "userset") = true then
                    match parseUserset t.user_id with
                    | some (userset_namespace, userset_object, userset_relation) =>
                      checkRec store b userset_namespace userset_object userset_relation
                        user_type user_id acc.2
                    | none => acc
                  else acc) acc l := by
            intro l
            induction l with
            | nil => intro _ acc _ _; rfl
            | cons t l ihl =>
              intro hl acc hca hcb
              by_cases hb1 : acc.1 = true
              · simp only [List.foldl_cons, if_pos hb1]
                exact ihl (fun x hx => hl x (List.mem_cons_of_mem _ hx)) acc hca hcb
              · by_cases hu : (t.user_type == "userset") = true
                · cases hp : parseUserset t.user_id with
                  | none =>
                    simp only [List.foldl_cons, if_neg hb1, if_pos hu, hp]
                    exact ihl (fun x hx => hl x (List.mem_cons_of_mem _ hx)) acc hca hcb
                  | some q =>
                    obtain ⟨qa, qb, qc⟩ := q
                    simp only [List.foldl_cons, if_neg hb1, if_pos hu, hp]
                    have hqm : (qa, qb, qc) ∈ K :=
                      hl t (List.mem_cons_self _ _) hu (qa, qb, qc) hp
                    have heq := ih b qa qb qc acc.2 hqm hca hcb
                    have hsub : acc.2 ⊆
                        (checkRec store a qa qb qc user_type user_id acc.2).2 :=
                      checkRec_visited_subset store a qa qb qc user_type user_id acc.2
                    rw [← heq]
                    exact ihl (fun x hx => hl x (List.mem_cons_of_mem _ hx))
                      (checkRec store a qa qb qc user_type user_id acc.2)
                      (le_trans (unvisitedCount_le_of_subset hsub) hca)
                      (le_trans (unvisitedCount_le_of_subset hsub) hcb)
                · simp only [List.foldl_cons, if_neg hb1, if_neg hu]
                  exact ihl (fun x hx => hl x (List.mem_cons_of_mem _ hx)) acc hca hcb
          have hclosed := hK (ns, object_id, relation) hmem
          obtain ⟨hE1, hS1⟩ := hfold1 (get_inherited_permissions relation)
            (fun r hr => hclosed.1 r hr)
            (false, canonicalKey ns object_id relation user_type user_id :: visited) ha' hb'
          rw [← hE1]
          split
          · rfl
          · refine hfold2 (find_tuples_by_object_relation store ns object_id relation)
              ?_ (false, _) ?_ ?_
            · intro t ht hu q hq
              refine hclosed.2 q ?_
              unfold usersetTargetsOf
              exact List.mem_filterMap.mpr ⟨t, ht, by rw [if_pos hu]; exact hq⟩
            · exact le_trans (unvisitedCount_le_of_subset hS1) ha'
            · exact le_trans (unvisitedCount_le_of_subset hS1) hb'

theorem inheritance_subset_five (s r : String) (h : r ∈ (inheritance s).getD []) :
    r ∈ ["viewer", "commenter", "editor", "admin", "owner"] := by
  unfold inheritance at h
  split_ifs at h <;> simp_all <;> tauto

theorem root_mem_keyUniverse (store : List RelationTuple) (ns object_id relation : String) :
    (ns, object_id, relation) ∈ keyUniverse store ns object_id relation := by
  unfold keyUniverse
  refine List.mem_flatMap.mpr ⟨(ns, object_id), List.mem_cons_self _ _, ?_⟩
  exact List.mem_map.mpr ⟨relation, List.mem_cons_self _ _, rfl⟩

/-- The concrete universe is closed under evaluator edges. -/
theorem evalClosed_keyUniverse (store : List RelationTuple) (ns object_id relation : String) :
    evalClosed store (keyUniverse store ns object_id relation) := by
  intro p hp
  unfold keyUniverse at hp
  obtain ⟨no, hno, hpmem⟩ := List.mem_flatMap.mp hp
  obtain ⟨pr, hpr, hpeq⟩ := List.mem_map.mp hpmem
  subst hpeq
  constructor
  · intro r hr
    unfold keyUniverse
    refine List.mem_flatMap.mpr ⟨no, hno, List.mem_map.mpr ⟨r, ?_, rfl⟩⟩
    rcases List.mem_cons.mp hr with h | h
    · subst h; exact hpr
    · have h5 := inheritance_subset_five _ _ h
      simp only [List.mem_cons, List.not_mem_nil, or_false] at h5
      rcases h5 with h | h | h | h | h <;> subst h <;> simp [List.mem_cons]
  · intro q hq
    have hq2 : q ∈ usersetTargets store := by
      unfold usersetTargetsOf at hq
      obtain ⟨t, ht, hteq⟩ := List.mem_filterMap.mp hq
      exact List.mem_filterMap.mpr ⟨t, List.mem_of_mem_filter ht, hteq⟩
    unfold keyUniverse
    refine List.mem_flatMap.mpr ⟨(q.1, q.2.1), ?_, ?_⟩
    · exact List.mem_cons_of_mem _ (List.mem_map.mpr ⟨q, hq2, rfl⟩)
    · refine List.mem_map.mpr ⟨q.2.2, ?_, rfl⟩
      refine List.mem_cons_of_mem _ (List.mem_cons_of_mem _ (List.mem_cons_of_mem _
        (List.mem_cons_of_mem _ (List.mem_cons_of_mem _ (List.mem_cons_of_mem _
          (List.mem_map.mpr ⟨q, hq2, rfl⟩))))))

/-! ## Rows that the evaluator cannot observe

A row whose `user_type` differs from the queried subject type never
matches the direct lookup; a row that is not expanded by the userset step
(wrong `user_type`, or an unparsable pointer) is skipped there.  A row
with both properties is invisible to the whole recursion. -/

theorem foldl_append_middle_id {α β : Type} (f : β → α → β) (t : α)
    (hid : ∀ acc, f acc t = acc) (l₁ l₂ : List α) (acc : β) :
    List.foldl f acc (l₁ ++ t :: l₂) = List.foldl f acc (l₁ ++ l₂) := by
  simp [List.foldl_append, List.foldl_cons, hid]

theorem find_direct_tuple_skip (s₁ s₂ : List RelationTuple) (t : RelationTuple)
    (ns object_id relation user_type user_id : String) (h : t.user_type ≠ user_type) :
    find_direct_tuple (s₁ ++ t :: s₂) ns object_id relation user_type user_id =
      find_direct_tuple (s₁ ++ s₂) ns object_id relation user_type user_id := by
  unfold find_direct_tuple
  rw [List.find?_append, List.find?_append]
  have hpt : (t.ns == ns && (t.object_id == object_id) && (t.relation == relation) &&
      (t.user_type == user_type) && (t.user_id == user_id)) = false := by
    have hut : (t.user_type == user_type) = false := beq_eq_false_iff_ne.mpr h
    simp [hut]
  rw [List.find?_cons_of_neg _ (by simp [hpt])]

theorem usersetTargets_skip (s₁ s₂ : List RelationTuple) (t : RelationTuple)
    (h : (t.user_type == "userset") = true → parseUserset t.user_id = none) :
    usersetTargets (s₁ ++ t :: s₂) = usersetTargets (s₁ ++ s₂) := by
  unfold usersetTargets
  rw [List.filterMap_append, List.filterMap_append, List.filterMap_cons]
  by_cases hu : (t.user_type == "userset") = true
  · rw [if_pos hu, h hu]
  · rw [if_neg hu]

theorem keyUniverse_skip (s₁ s₂ : List RelationTuple) (t : RelationTuple)
    (ns object_id relation : String)
    (h : (t.user_type == "userset") = true → parseUserset t.user_id = none) :
    keyUniverse (s₁ ++ t :: s₂) ns object_id relation =
      keyUniverse (s₁ ++ s₂) ns object_id relation := by
  unfold keyUniverse
  rw [usersetTargets_skip s₁ s₂ t h]

/-- For a `"user"`-typed subject, a row that is neither a direct match
(`user_type ≠ "user"`) nor expandable by the userset step is invisible
to the recursion. -/
theorem checkRec_skip_invisible (s₁ s₂ : List RelationTuple) (t : RelationTuple)
    (user_id : String) (hdirect : t.user_type ≠ "user")
    (hstep : (t.user_type == "userset") = true → parseUserset t.user_id = none) :
    ∀ (fuel : Nat) (ns object_id relation : String) (visited : List String),
      checkRec (s₁ ++ t :: s₂) fuel ns object_id relation "user" user_id visited =
        checkRec (s₁ ++ s₂) fuel ns object_id relation "user" user_id visited := by
  intro fuel
  induction fuel with
  | zero => intro ns object_id relation visited; rfl
  | succ fuel ih =>
    intro ns object_id relation visited
    simp only [checkRec]
    by_cases hc :
        visited.contains (canonicalKey ns object_id relation "user" user_id) = true
    · rw [if_pos hc, if_pos hc]
    · rw [if_neg hc, if_neg hc,
        find_direct_tuple_skip s₁ s₂ t ns object_id relation "user" user_id hdirect]
      by_cases hd :
          (find_direct_tuple (s₁ ++ s₂) ns object_id relation "user" user_id).isSome = true
      · rw [if_pos hd, if_pos hd]
      · rw [if_neg hd, if_neg hd]
        have hstep1 : (fun (acc : Bool × List String) higher_permission =>
            if acc.1 = true then acc
            else checkRec (s₁ ++ t :: s₂) fuel ns object_id higher_permission
              "user" user_id acc.2) =
            (fun (acc : Bool × List String) higher_permission =>
            if acc.1 = true then acc
            else checkRec (s₁ ++ s₂) fuel ns object_id higher_permission
              "user" user_id acc.2) := by
          funext acc r
          by_cases hb : acc.1 = true
          · rw [if_pos hb, if_pos hb]
          · rw [if_neg hb, if_neg hb, ih ns object_id r acc.2]
        have hstep2 : (fun (acc : Bool × List String) (u : RelationTuple) =>
            if acc.1 = true then acc
            else if (u.user_type == "userset") = true then
              match parseUserset u.user_id with
              | some (userset_namespace, userset_object, userset_relation) =>
                checkRec (s₁ ++ t :: s₂) fuel userset_namespace userset_object
                  userset_relation "user" user_id acc.2
              | none => acc
            else acc) =
            (fun (acc : Bool × List String) (u : RelationTuple) =>
            if acc.1 = true then acc
            else if (u.user_type == "userset") = true then
              match parseUserset u.user_id with
              | some (userset_namespace, userset_object, userset_relation) =>
                checkRec (s₁ ++ s₂) fuel userset_namespace userset_object
                  userset_relation "user" user_id acc.2
              | none => acc
            else acc) := by
          funext acc u
          by_cases hb : acc.1 = true
          · rw [if_pos hb, if_pos hb]
          · rw [if_neg hb, if_neg hb]
            by_cases hu : (u.user_type == "userset") = true
            · rw [if_pos hu, if_pos hu]
              cases hp : parseUserset u.user_id with
              | none => rfl
              | some q => obtain ⟨qa, qb, qc⟩ := q; exact ih qa qb qc acc.2
            · rw [if_neg hu, if_neg hu]
        rw [hstep1, hstep2]
        have hlist : ∀ acc : Bool × List String,
            List.foldl (fun (acc : Bool × List String) (u : RelationTuple) =>
              if acc.1 = true then acc
              else if (u.user_type == "userset") = true then
                match parseUserset u.user_id with
                | some (userset_namespace, userset_object, userset_relation) =>
                  checkRec (s₁ ++ s₂) fuel userset_namespace userset_object
                    userset_relation "user" user_id acc.2
                | none => acc
              else acc) acc
              (find_tuples_by_object_relation (s₁ ++ t :: s₂) ns object_id relation) =
            List.foldl (fun (acc : Bool × List String) (u : RelationTuple) =>
              if acc.1 = true then acc
              else if (u.user_type == "userset") = true then
                match parseUserset u.user_id with
                | some (userset_namespace, userset_object, userset_relation) =>
                  checkRec (s₁ ++ s₂) fuel userset_namespace userset_object
                    userset_relation "user" user_id acc.2
                | none => acc
              else acc) acc
              (find_tuples_by_object_relation (s₁ ++ s₂) ns object_id relation) := by
          intro acc
          unfold find_tuples_by_object_relation
          rw [List.filter_append, List.filter_append, List.filter_cons]
          by_cases hpt : (t.ns == ns && (t.object_id == object_id) &&
              (t.relation == relation)) = true
          · rw [if_pos hpt]
            refine foldl_append_middle_id _ _ ?_ _ _ _
            intro acc
            by_cases hb : acc.1 = true
            · rw [if_pos hb]
            · rw [if_neg hb]
              by_cases hu : (t.user_type == "userset") = true
              · rw [if_pos hu, hstep hu]
              · rw [if_neg hu]
          · rw [if_neg hpt]
        rw [hlist]

theorem check_permission_uncached_skip (s₁ s₂ : List RelationTuple) (t : RelationTuple)
    (request : CheckRequest) (hdirect : t.user_type ≠ "user")
    (hstep : (t.user_type == "userset") = true → parseUserset t.user_id = none)
    (hut : request.user_type.getD "user" = "user") :
    check_permission_uncached (s₁ ++ t :: s₂) request =
      check_permission_uncached (s₁ ++ s₂) request := by
  unfold check_permission_uncached checkFuel
  rw [keyUniverse_skip s₁ s₂ t request.ns request.object_id request.relation hstep, hut]
  dsimp only
  rw [checkRec_skip_invisible s₁ s₂ t request.user_id hdirect hstep]

/-! ## Claim theorems for the evaluator -/

/-- C1: permission inheritance is NOT evaluated upward by the code: with the
single tuple `documents:doc1#editor@user:bob`, the `editor` check succeeds
while the `viewer` check fails (the inheritance step enumerates
`get_inherited_permissions(relation)`, the relations implied BY the request,
i.e. downward); symmetrically a mere `viewer` holder passes an `owner`
check.  This refutes the claim that holding `editor` implies a successful
`viewer` check. -/
theorem c1_inheritance_direction_reversed :
    check_permission_uncached [⟨"documents", "doc1", "editor", "user", "bob", 0⟩]
      ⟨"documents", "doc1", "editor", "bob", some "user", none⟩ = true ∧
    check_permission_uncached [⟨"documents", "doc1", "editor", "user", "bob", 0⟩]
      ⟨"documents", "doc1", "viewer", "bob", some "user", none⟩ = false ∧
    check_permission_uncached [⟨"documents", "doc1", "viewer", "user", "bob", 0⟩]
      ⟨"documents", "doc1", "owner", "bob", some "user", none⟩ = true :=
  ⟨rfl, rfl, rfl⟩

/-- C2: every top-level check terminates with a result independent of any
fuel at least the number of distinct canonical keys of a triple set closed
under the evaluator's edges (the reachable keys form such a set); entering a
node whose canonical key is already visited returns `false` immediately;
and a concrete finite closed universe containing the root always exists. -/
theorem c2_cycle_safe_termination :
    (∀ (store : List RelationTuple) (fuel : Nat)
        (ns object_id relation user_type user_id : String) (visited : List String),
        visited.contains (canonicalKey ns object_id relation user_type user_id) = true →
        checkRec store fuel ns object_id relation user_type user_id visited =
          (false, visited)) ∧
    (∀ (store : List RelationTuple) (K : List (String × String × String))
        (user_type user_id ns object_id relation : String) (f₁ f₂ : Nat),
        evalClosed store K → (ns, object_id, relation) ∈ K →
        unvisitedCount K user_type user_id [] ≤ f₁ →
        unvisitedCount K user_type user_id [] ≤ f₂ →
        checkRec store f₁ ns object_id relation user_type user_id [] =
          checkRec store f₂ ns object_id relation user_type user_id []) ∧
    (∀ (store : List RelationTuple) (ns object_id relation : String),
        evalClosed store (keyUniverse store ns object_id relation) ∧
        (ns, object_id, relation) ∈ keyUniverse store ns object_id relation) := by
  refine ⟨?_, ?_, ?_⟩
  · intro store fuel ns object_id relation user_type user_id visited h
    cases fuel with
    | zero => rfl
    | succ fuel => simp only [checkRec]; rw [if_pos h]
  · intro store K user_type user_id ns object_id relation f₁ f₂ hK hmem h1 h2
    exact checkRec_fuel_congr store K user_type user_id hK f₁ f₂
      ns object_id relation [] hmem h1 h2
  · intro store ns object_id relation
    exact ⟨evalClosed_keyUniverse store ns object_id relation,
      root_mem_keyUniverse store ns object_id relation⟩

/-- Witness for C2 on the cyclic scenario S4 of the spec
(`group:A#member@userset:group:B#member` and the converse edge). -/
theorem c2_cycle_safe_termination_witness :
    checkRec [⟨"group", "A", "member", "userset", "group:B#member", 0⟩,
        ⟨"group", "B", "member", "userset", "group:A#member", 0⟩]
      30 "group" "A" "member" "user" "dan" [] =
    checkRec [⟨"group", "A", "member", "userset", "group:B#member", 0⟩,
        ⟨"group", "B", "member", "userset", "group:A#member", 0⟩]
      12 "group" "A" "member" "user" "dan" [] :=
  c2_cycle_safe_termination.2.1
    [⟨"group", "A", "member", "userset", "group:B#member", 0⟩,
     ⟨"group", "B", "member", "userset", "group:A#member", 0⟩]
    (keyUniverse [⟨"group", "A", "member", "userset", "group:B#member", 0⟩,
        ⟨"group", "B", "member", "userset", "group:A#member", 0⟩] "group" "A" "member")
    "user" "dan" "group" "A" "member" 30 12
    (by decide) (by decide) (by decide) (by decide)

/-- C3: refuted as stated: a row whose `subject_type` is `"group"` (neither
`"user"` nor `"userset"`) is NOT expanded — the check fails although
expanding the row would succeed — while the identical row typed
`"userset"` is expanded. -/
theorem c3_counterexample :
    check_permission_uncached
      [⟨"documents", "doc1", "viewer", "group", "team:x#member", 0⟩,
       ⟨"team", "x", "member", "user", "alice", 0⟩]
      ⟨"documents", "doc1", "viewer", "alice", some "user", none⟩ = false ∧
    check_permission_uncached
      [⟨"documents", "doc1", "viewer", "userset", "team:x#member", 0⟩,
       ⟨"team", "x", "member", "user", "alice", 0⟩]
      ⟨"documents", "doc1", "viewer", "alice", some "user", none⟩ = true :=
  ⟨rfl, rfl⟩

/-- C3 (amended): only rows with `subject_type` exactly `"userset"` are
expanded during the userset step; a row with any other non-`"user"`
subject type is invisible to a check for a `"user"`-typed subject — the
result is exactly as if the row were absent. -/
theorem c3_amended_only_userset_expanded :
    ∀ (s₁ s₂ : List RelationTuple) (t : RelationTuple) (request : CheckRequest),
      t.user_type ≠ "user" → t.user_type ≠ "userset" →
      request.user_type.getD "user" = "user" →
      check_permission_uncached (s₁ ++ t :: s₂) request =
        check_permission_uncached (s₁ ++ s₂) request := by
  intro s₁ s₂ t request h1 h2 hut
  refine check_permission_uncached_skip s₁ s₂ t request h1 ?_ hut
  intro hu
  exact absurd (eq_of_beq hu) h2

/-- Witness for the amended C3: dropping the `"group"`-typed row leaves the
check unchanged. -/
theorem c3_amended_only_userset_expanded_witness :
    check_permission_uncached
      ([] ++ ⟨"documents", "doc1", "viewer", "group", "team:x#member", 0⟩ ::
        [⟨"team", "x", "member", "user", "alice", 0⟩])
      ⟨"documents", "doc1", "viewer", "alice", some "user", none⟩ =
    check_permission_uncached ([] ++ [⟨"team", "x", "member", "user", "alice", 0⟩])
      ⟨"documents", "doc1", "viewer", "alice", some "user", none⟩ :=
  c3_amended_only_userset_expanded [] [⟨"team", "x", "member", "user", "alice", 0⟩]
    ⟨"documents", "doc1", "viewer", "group", "team:x#member", 0⟩
    ⟨"documents", "doc1", "viewer", "alice", some "user", none⟩
    (by decide) (by decide) rfl

/-- C4: refuted as stated: a `"userset"` row with unparsable `subject_id`
(`"noparse"` has no `:`) still matches a *direct* lookup when the request's
subject is the userset itself, so the check result is not always as if the
row were absent. -/
theorem c4_counterexample :
    check_permission_uncached [⟨"documents", "doc1", "viewer", "userset", "noparse", 0⟩]
      ⟨"documents", "doc1", "viewer", "noparse", some "userset", none⟩ = true ∧
    check_permission_uncached []
      ⟨"documents", "doc1", "viewer", "noparse", some "userset", none⟩ = false :=
  ⟨rfl, rfl⟩

/-- C4 (amended): for a `"user"`-typed subject a `"userset"` row whose
`subject_id` fails the split-once-`:`-then-split-once-`#` parse is skipped
silently and the check result is exactly as if the row were absent;
moreover, in the userset fold a row that parses is recursed into at the
parsed triple with the original subject, and once an allow is found the
fold keeps it (first allow terminates the search). -/
theorem c4_unparsable_rows_skipped :
    (∀ (s₁ s₂ : List RelationTuple) (t : RelationTuple) (request : CheckRequest),
      (t.user_type == "userset") = true → parseUserset t.user_id = none →
      request.user_type.getD "user" = "user" →
      check_permission_uncached (s₁ ++ t :: s₂) request =
        check_permission_uncached (s₁ ++ s₂) request) ∧
    (∀ (store : List RelationTuple) (fuel : Nat) (user_type user_id : String)
        (t : RelationTuple) (rest : List RelationTuple) (acc : Bool × List String)
        (a b c : String),
      (t.user_type == "userset") = true → parseUserset t.user_id = some (a, b, c) →
      acc.1 = false →
      List.foldl (fun (acc : Bool × List String) (u : RelationTuple) =>
        if acc.1 = true then acc
        else if (u.user_type == "userset") = true then
          match parseUserset u.user_id with
          | some (userset_namespace, userset_object, userset_relation) =>
            checkRec store fuel userset_namespace userset_object userset_relation
              user_type user_id acc.2
          | none => acc
        else acc) acc (t :: rest) =
      List.foldl (fun (acc : Bool × List String) (u : RelationTuple) =>
        if acc.1 = true then acc
        else if (u.user_type == "userset") = true then
          match parseUserset u.user_id with
          | some (userset_namespace, userset_object, userset_relation) =>
            checkRec store fuel userset_namespace userset_object userset_relation
              user_type user_id acc.2
          | none => acc
        else acc) (checkRec store fuel a b c user_type user_id acc.2) rest) ∧
    (∀ (store : List RelationTuple) (fuel : Nat) (user_type user_id : String)
        (l : List RelationTuple) (acc : Bool × List String),
      acc.1 = true →
      List.foldl (fun (acc : Bool × List String) (u : RelationTuple) =>
        if acc.1 = true then acc
        else if (u.user_type == "userset") = true then
          match parseUserset u.user_id with
          | some (userset_namespace, userset_object, userset_relation) =>
            checkRec store fuel userset_namespace userset_object userset_relation
              user_type user_id acc.2
          | none => acc
        else acc) acc l = acc) := by
  refine ⟨?_, ?_, ?_⟩
  · intro s₁ s₂ t request hu hp hut
    refine check_permission_uncached_skip s₁ s₂ t request ?_ (fun _ => hp) hut
    intro h
    rw [eq_of_beq hu] at h
    exact absurd h (by decide)
  · intro store fuel user_type user_id t rest acc a b c hu hp hacc
    rw [List.foldl_cons]
    have hnot : ¬(acc.1 = true) := by rw [hacc]; exact Bool.false_ne_true
    rw [if_neg hnot, if_pos hu, hp]
  · intro store fuel user_type user_id l
    induction l with
    | nil => intro acc _; rfl
    | cons t l ihl =>
      intro acc h
      rw [List.foldl_cons, if_pos h]
      exact ihl acc h

/-- Witness for the amended C4: dropping the unparsable `"userset"` row
leaves a `"user"` check unchanged; the parsable row `team:x#member` is
recursed into; an accumulator that already holds `true` is untouched. -/
theorem c4_unparsable_rows_skipped_witness :
    (check_permission_uncached
        ([] ++ ⟨"documents", "doc1", "viewer", "userset", "noparse", 0⟩ ::
          [⟨"documents", "doc1", "viewer", "user", "alice", 0⟩])
        ⟨"documents", "doc1", "viewer", "alice", some "user", none⟩ =
      check_permission_uncached ([] ++ [⟨"documents", "doc1", "viewer", "user", "alice", 0⟩])
        ⟨"documents", "doc1", "viewer", "alice", some "user", none⟩) ∧
    (List.foldl (fun (acc : Bool × List String) (u : RelationTuple) =>
        if acc.1 = true then acc
        else if (u.user_type == "userset") = true then
          match parseUserset u.user_id with
          | some (userset_namespace, userset_object, userset_relation) =>
            checkRec [] 3 userset_namespace userset_object userset_relation
              "user" "alice" acc.2
          | none => acc
        else acc) (false, [])
        [⟨"documents", "doc1", "viewer", "userset", "team:x#member", 0⟩] =
      List.foldl (fun (acc : Bool × List String) (u : RelationTuple) =>
        if acc.1 = true then acc
        else if (u.user_type == "userset") = true then
          match parseUserset u.user_id with
          | some (userset_namespace, userset_object, userset_relation) =>
            checkRec [] 3 userset_namespace userset_object userset_relation
              "user" "alice" acc.2
          | none => acc
        else acc) (checkRec [] 3 "team" "x" "member" "user" "alice" []) []) :=
  ⟨(c4_unparsable_rows_skipped.1 []
      [⟨"documents", "doc1", "viewer", "user", "alice", 0⟩]
      ⟨"documents", "doc1", "viewer", "userset", "noparse", 0⟩
      ⟨"documents", "doc1", "viewer", "alice", some "user", none⟩
      (by decide) (by decide) rfl),
   (c4_unparsable_rows_skipped.2.1 [] 3 "user" "alice"
      ⟨"documents", "doc1", "viewer", "userset", "team:x#member", 0⟩
      [] (false, []) "team" "x" "member" (by decide) (by decide) rfl)⟩

/-- C10: when the required relation is unknown to the hierarchy
(`get_level` returns 0), `can_access` accepts any held relation, known or
not, because every level is at least 0. -/
theorem c10_unknown_required_relation_allows :
    ∀ (held required : String), get_level required = 0 →
      can_access held required = true := by
  intro held required h
  unfold can_access
  rw [h]
  exact decide_eq_true (Nat.zero_le _)

/-- Witness for C10: `"banana"` is not a relation name, so even the empty
held relation passes. -/
theorem c10_unknown_required_relation_allows_witness :
    get_level "banana" = 0 ∧ can_access "" "banana" = true :=
  ⟨rfl, c10_unknown_required_relation_allows "" "banana" rfl⟩

/-! ## Base64 round trip -/

theorem optionBind_some {α β : Type} (a : α) (f : α → Option β) :
    (do let v ← some a; f v) = f a := rfl

theorem b64Val_b64Char : ∀ n : Nat, n < 64 → b64Val (b64Char n) = some n := by decide

theorem b64Char_ne_pad : ∀ n : Nat, n < 64 → b64Char n ≠ '=' := by decide

theorem b64_roundtrip : ∀ bs : List Nat, (∀ b ∈ bs, b < 256) →
    b64DecodeList (b64EncodeList bs) = some bs := by
  intro bs
  induction bs using b64EncodeList.induct with
  | case1 b1 b2 b3 rest ih =>
    intro hb
    have h1 : b1 < 256 := hb b1 (by simp)
    have h2 : b2 < 256 := hb b2 (by simp)
    have h3 : b3 < 256 := hb b3 (by simp)
    have htail : b64DecodeList (b64EncodeList rest) = some rest :=
      ih fun b hbm => hb b (by simp [hbm])
    simp only [b64EncodeList, b64DecodeList]
    rw [b64Val_b64Char _ (by omega), b64Val_b64Char _ (by omega)]
    simp only [optionBind_some]
    rw [if_neg (b64Char_ne_pad _ (by omega))]
    rw [b64Val_b64Char _ (by omega)]
    simp only [optionBind_some]
    rw [if_neg (b64Char_ne_pad _ (by omega))]
    rw [b64Val_b64Char _ (by omega)]
    simp only [optionBind_some, htail]
    refine congrArg some ?_
    refine List.cons_eq_cons.mpr ⟨by omega, ?_⟩
    refine List.cons_eq_cons.mpr ⟨by omega, ?_⟩
    exact List.cons_eq_cons.mpr ⟨by omega, rfl⟩
  | case2 b1 b2 =>
    intro hb
    have h1 : b1 < 256 := hb b1 (by simp)
    have h2 : b2 < 256 := hb b2 (by simp)
    simp only [b64EncodeList, b64DecodeList]
    rw [b64Val_b64Char _ (by omega), b64Val_b64Char _ (by omega)]
    simp only [optionBind_some]
    rw [if_neg (b64Char_ne_pad _ (by omega))]
    rw [b64Val_b64Char _ (by omega)]
    simp only [optionBind_some]
    simp only [true_and, if_true]
    rw [if_pos (show (b1 * 65536 + b2 * 256) / 64 % 64 % 4 = 0 by omega)]
    refine congrArg some ?_
    refine List.cons_eq_cons.mpr ⟨by omega, ?_⟩
    exact List.cons_eq_cons.mpr ⟨by omega, rfl⟩
  | case3 b1 =>
    intro hb
    have h1 : b1 < 256 := hb b1 (by simp)
    simp only [b64EncodeList, b64DecodeList]
    rw [b64Val_b64Char _ (by omega), b64Val_b64Char _ (by omega)]
    simp only [optionBind_some]
    simp only [true_and, if_true]
    rw [if_pos (show b1 * 65536 / 4096 % 64 % 16 = 0 by omega)]
    exact congrArg some (List.cons_eq_cons.mpr ⟨by omega, rfl⟩)
  | case4 =>
    intro _
    rfl

/-! ## UTF-8 round trip -/

theorem char_toNat_facts (c : Char) :
    c.toNat < 1114112 ∧ (c.toNat < 55296 ∨ 57344 ≤ c.toNat) := by
  have h := c.valid
  unfold UInt32.isValidChar Nat.isValidChar at h
  have h2 : c.toNat = c.val.toNat := rfl
  omega

theorem utf8EncodeChar_lt (c : Char) : ∀ b ∈ utf8EncodeChar c, b < 256 := by
  have hf := char_toNat_facts c
  intro b hb
  rw [utf8EncodeChar] at hb
  split_ifs at hb <;> simp_all <;> omega

theorem utf8EncodeChar_ne_nil (c : Char) : utf8EncodeChar c ≠ [] := by
  rw [utf8EncodeChar]
  split_ifs <;> simp

/-- Decoding one step of an encoded character recovers that character. -/
theorem utf8DecodeStep_encodeChar (c : Char) (rest : List Nat) :
    utf8DecodeStep (utf8EncodeChar c ++ rest) = some (c, rest) := by
  have hf := char_toNat_facts c
  rw [utf8EncodeChar]
  by_cases h1 : c.toNat < 128
  · rw [if_pos h1]
    show utf8DecodeStep (c.toNat :: rest) = _
    rw [utf8DecodeStep, if_pos h1, Char.ofNat_toNat]
  · rw [if_neg h1]
    by_cases h2 : c.toNat < 2048
    · rw [if_pos h2]
      show utf8DecodeStep ((192 + c.toNat / 64) :: (128 + c.toNat % 64) :: rest) = _
      rw [utf8DecodeStep, if_neg (by omega), if_neg (by omega), if_pos (by omega),
        utf8Two, if_pos (by omega)]
      rw [show (192 + c.toNat / 64 - 192) * 64 + (128 + c.toNat % 64 - 128) = c.toNat by
        omega]
      rw [Char.ofNat_toNat]
    · rw [if_neg h2]
      by_cases h3 : c.toNat < 65536
      · rw [if_pos h3]
        show utf8DecodeStep ((224 + c.toNat / 4096) :: (128 + c.toNat / 64 % 64) ::
          (128 + c.toNat % 64) :: rest) = _
        rw [utf8DecodeStep, if_neg (by omega), if_neg (by omega), if_neg (by omega),
          if_pos (by omega), utf8Three]
        rw [if_pos (by omega)]
        rw [show (224 + c.toNat / 4096 - 224) * 4096 + (128 + c.toNat / 64 % 64 - 128) * 64 +
          (128 + c.toNat % 64 - 128) = c.toNat by omega]
        rw [Char.ofNat_toNat]
      · rw [if_neg h3]
        show utf8DecodeStep ((240 + c.toNat / 262144) :: (128 + c.toNat / 4096 % 64) ::
          (128 + c.toNat / 64 % 64) :: (128 + c.toNat % 64) :: rest) = _
        rw [utf8DecodeStep, if_neg (by omega), if_neg (by omega), if_neg (by omega),
          if_neg (by omega), if_pos (by omega), utf8Four]
        rw [if_pos (by omega)]
        rw [show (240 + c.toNat / 262144 - 240) * 262144 +
          (128 + c.toNat / 4096 % 64 - 128) * 4096 +
          (128 + c.toNat / 64 % 64 - 128) * 64 + (128 + c.toNat % 64 - 128) = c.toNat by
          omega]
        rw [Char.ofNat_toNat]

theorem utf8DecodeAux_roundtrip :
    ∀ (cs : List Char) (fuel : Nat), cs.length ≤ fuel →
      utf8DecodeAux fuel (utf8EncodeChars cs) = some cs := by
  intro cs
  induction cs with
  | nil => intro fuel _; cases fuel <;> rfl
  | cons c cs ih =>
    intro fuel hf
    cases fuel with
    | zero => simp at hf
    | succ fuel =>
      have hne : utf8EncodeChars (c :: cs) =
          utf8EncodeChar c ++ utf8EncodeChars cs := rfl
      obtain ⟨b, bs, hsplit⟩ :
          ∃ b bs, utf8EncodeChar c ++ utf8EncodeChars cs = b :: bs := by
        cases henc : utf8EncodeChar c with
        | nil => exact absurd henc (utf8EncodeChar_ne_nil c)
        | cons b bs => exact ⟨b, bs ++ utf8EncodeChars cs, by simp⟩
      rw [hne, hsplit, utf8DecodeAux, ← hsplit, utf8DecodeStep_encodeChar]
      show (utf8DecodeAux fuel (utf8EncodeChars cs)).map (c :: ·) = some (c :: cs)
      rw [ih fuel (by simpa using hf)]
      rfl

theorem utf8EncodeChars_length (cs : List Char) :
    cs.length ≤ (utf8EncodeChars cs).length := by
  induction cs with
  | nil => simp [utf8EncodeChars]
  | cons c cs ih =>
    have : utf8EncodeChars (c :: cs) = utf8EncodeChar c ++ utf8EncodeChars cs := rfl
    rw [this, List.length_append, List.length_cons]
    have hne : 1 ≤ (utf8EncodeChar c).length := by
      cases henc : utf8EncodeChar c with
      | nil => exact absurd henc (utf8EncodeChar_ne_nil c)
      | cons b bs => simp
    omega

theorem utf8_roundtrip (cs : List Char) :
    utf8Decode (utf8EncodeChars cs) = some cs := by
  unfold utf8Decode
  exact utf8DecodeAux_roundtrip cs _ (utf8EncodeChars_length cs)

theorem utf8EncodeChars_lt (cs : List Char) : ∀ b ∈ utf8EncodeChars cs, b < 256 := by
  intro b hb
  unfold utf8EncodeChars at hb
  obtain ⟨c, _, hbc⟩ := List.mem_flatMap.mp hb
  exact utf8EncodeChar_lt c b hbc

/-! ## JSON round trip: literals, integers, strings -/

theorem parseLit_append (lit rest : List Char) : parseLit lit (lit ++ rest) = some rest := by
  induction lit with
  | nil => rfl
  | cons l ls ih =>
    show parseLit (l :: ls) (l :: (ls ++ rest)) = some rest
    rw [parseLit, if_pos rfl]
    exact ih

theorem parseLit_ne (l : Char) (ls : List Char) (c : Char) (cs : List Char) (h : c ≠ l) :
    parseLit (l :: ls) (c :: cs) = none := by
  rw [parseLit, if_neg h]

theorem isDigitChar_digit (n : Nat) (h : n < 10) :
    isDigitChar (Char.ofNat (48 + n)) = true := by
  interval_cases n <;> decide

theorem toNat_digit (n : Nat) (h : n < 10) : (Char.ofNat (48 + n)).toNat = 48 + n := by
  interval_cases n <;> decide

theorem natDigitsAux_all_digits :
    ∀ (fuel n : Nat) (c : Char), c ∈ natDigitsAux fuel n → isDigitChar c = true := by
  intro fuel
  induction fuel with
  | zero => intro n c hc; simp [natDigitsAux] at hc
  | succ fuel ih =>
    intro n c hc
    rw [natDigitsAux] at hc
    by_cases h : n < 10
    · rw [if_pos h] at hc
      simp only [List.mem_singleton] at hc
      subst hc
      exact isDigitChar_digit n h
    · rw [if_neg h] at hc
      rcases List.mem_append.mp hc with h2 | h2
      · exact ih (n / 10) c h2
      · simp only [List.mem_singleton] at h2
        subst h2
        exact isDigitChar_digit (n % 10) (by omega)

theorem natToChars_ne_nil (n : Nat) : natToChars n ≠ [] := by
  rw [natToChars, natDigitsAux]
  by_cases h : n < 10
  · rw [if_pos h]; simp
  · rw [if_neg h]; simp

theorem parseNatAux_stop (rest : List Char)
    (h : ∀ c cs, rest = c :: cs → isDigitChar c = false) (acc : Nat) :
    parseNatAux rest acc = (acc, rest) := by
  cases rest with
  | nil => rfl
  | cons c cs =>
    rw [parseNatAux]
    simp [h c cs rfl]

theorem parseNatAux_digits :
    ∀ (fuel n : Nat), n < fuel → ∀ (acc : Nat) (rest : List Char),
      ∃ w, 0 < w ∧
        parseNatAux (natDigitsAux fuel n ++ rest) acc = parseNatAux rest (acc * w + n) := by
  intro fuel
  induction fuel with
  | zero => intro n h; omega
  | succ fuel ih =>
    intro n hn acc rest
    rw [natDigitsAux]
    by_cases h : n < 10
    · refine ⟨10, by omega, ?_⟩
      rw [if_pos h]
      show parseNatAux (Char.ofNat (48 + n) :: rest) acc = _
      rw [parseNatAux]
      simp only [isDigitChar_digit n h, if_true]
      rw [toNat_digit n h, show 48 + n - 48 = n from by omega]
    · rw [if_neg h]
      obtain ⟨w, hw, heq⟩ := ih (n / 10) (by omega) acc (Char.ofNat (48 + n % 10) :: rest)
      refine ⟨w * 10, by omega, ?_⟩
      rw [List.append_assoc]
      rw [show [Char.ofNat (48 + n % 10)] ++ rest = Char.ofNat (48 + n % 10) :: rest
        from rfl]
      rw [heq, parseNatAux]
      simp only [isDigitChar_digit (n % 10) (by omega : n % 10 < 10), if_true]
      rw [toNat_digit (n % 10) (by omega), show 48 + n % 10 - 48 = n % 10 from by omega]
      refine congrArg (parseNatAux rest) ?_
      rw [← Nat.mul_assoc]
      generalize acc * w = k
      omega

theorem parseNatAux_natToChars (n : Nat) (rest : List Char)
    (h : ∀ c cs, rest = c :: cs → isDigitChar c = false) :
    parseNatAux (natToChars n ++ rest) 0 = (n, rest) := by
  obtain ⟨w, hw, heq⟩ := parseNatAux_digits (n + 1) n (by omega) 0 rest
  rw [natToChars, heq, parseNatAux_stop rest h]
  simp

theorem parseJsonInt_encode (i : Int) (rest : List Char)
    (h : ∀ c cs, rest = c :: cs → isDigitChar c = false) :
    parseJsonInt (jsonIntChars i ++ rest) = some (i, rest) := by
  rw [jsonIntChars]
  by_cases hi : i < 0
  · rw [if_pos hi]
    obtain ⟨c, cs, hsplit⟩ : ∃ c cs, natToChars (-i).toNat = c :: cs := by
      cases hh : natToChars (-i).toNat with
      | nil => exact absurd hh (natToChars_ne_nil _)
      | cons c cs => exact ⟨c, cs, rfl⟩
    have hd : isDigitChar c = true :=
      natDigitsAux_all_digits _ _ c (by rw [← natToChars, hsplit]; simp)
    rw [List.cons_append, hsplit, List.cons_append, parseJsonInt, if_pos rfl,
      parseNegInt]
    simp only [hd, if_true]
    rw [← List.cons_append, ← hsplit, parseNatAux_natToChars _ rest h]
    have : (((-i).toNat : Int)) = -i := Int.toNat_of_nonneg (by omega)
    simp [this]
  · rw [if_neg hi]
    obtain ⟨c, cs, hsplit⟩ : ∃ c cs, natToChars i.toNat = c :: cs := by
      cases hh : natToChars i.toNat with
      | nil => exact absurd hh (natToChars_ne_nil _)
      | cons c cs => exact ⟨c, cs, rfl⟩
    have hd : isDigitChar c = true :=
      natDigitsAux_all_digits _ _ c (by rw [← natToChars, hsplit]; simp)
    have hcne : ¬(c = '-') := by
      intro hceq
      rw [hceq] at hd
      exact absurd hd (by decide)
    rw [hsplit, List.cons_append, parseJsonInt, if_neg hcne]
    simp only [hd, if_true]
    rw [← List.cons_append, ← hsplit, parseNatAux_natToChars _ rest h]
    have : ((i.toNat : Int)) = i := Int.toNat_of_nonneg (by omega)
    simp [this]

theorem hexVal_hexDigitChar : ∀ k : Nat, k < 16 → hexVal (hexDigitChar k) = some k := by
  decide

theorem unescapeStep_escapeChar (c : Char) (rest : List Char) :
    unescapeStep (escapeChar c ++ rest) = some (c, rest) := by
  have hf := char_toNat_facts c
  rw [escapeChar]
  by_cases h1 : c = '"'
  · rw [if_pos h1]
    show unescapeStep ('\\' :: '"' :: rest) = _
    rw [unescapeStep, if_pos rfl, unescapeEsc, if_pos rfl, h1]
  · rw [if_neg h1]
    by_cases h2 : c = '\\'
    · rw [if_pos h2]
      show unescapeStep ('\\' :: '\\' :: rest) = _
      rw [unescapeStep, if_pos rfl, unescapeEsc, if_neg (by decide), if_pos rfl, h2]
    · rw [if_neg h2]
      by_cases h3 : c.toNat = 8
      · rw [if_pos h3]
        show unescapeStep ('\\' :: 'b' :: rest) = _
        rw [unescapeStep, if_pos rfl, unescapeEsc, if_neg (by decide), if_neg (by decide),
          if_neg (by decide), if_pos rfl]
        rw [show Char.ofNat 8 = c from by rw [← h3, Char.ofNat_toNat]]
      · rw [if_neg h3]
        by_cases h4 : c.toNat = 9
        · rw [if_pos h4]
          show unescapeStep ('\\' :: 't' :: rest) = _
          rw [unescapeStep, if_pos rfl, unescapeEsc, if_neg (by decide), if_neg (by decide),
            if_neg (by decide), if_neg (by decide), if_neg (by decide), if_neg (by decide),
            if_neg (by decide), if_pos rfl]
          rw [show Char.ofNat 9 = c from by rw [← h4, Char.ofNat_toNat]]
        · rw [if_neg h4]
          by_cases h5 : c.toNat = 10
          · rw [if_pos h5]
            show unescapeStep ('\\' :: 'n' :: rest) = _
            rw [unescapeStep, if_pos rfl, unescapeEsc, if_neg (by decide),
              if_neg (by decide), if_neg (by decide), if_neg (by decide),
              if_neg (by decide), if_pos rfl]
            rw [show Char.ofNat 10 = c from by rw [← h5, Char.ofNat_toNat]]
          · rw [if_neg h5]
            by_cases h6 : c.toNat = 12
            · rw [if_pos h6]
              show unescapeStep ('\\' :: 'f' :: rest) = _
              rw [unescapeStep, if_pos rfl, unescapeEsc, if_neg (by decide),
                if_neg (by decide), if_neg (by decide), if_neg (by decide), if_pos rfl]
              rw [show Char.ofNat 12 = c from by rw [← h6, Char.ofNat_toNat]]
            · rw [if_neg h6]
              by_cases h7 : c.toNat = 13
              · rw [if_pos h7]
                show unescapeStep ('\\' :: 'r' :: rest) = _
                rw [unescapeStep, if_pos rfl, unescapeEsc, if_neg (by decide),
                  if_neg (by decide), if_neg (by decide), if_neg (by decide),
                  if_neg (by decide), if_neg (by decide), if_pos rfl]
                rw [show Char.ofNat 13 = c from by rw [← h7, Char.ofNat_toNat]]
              · rw [if_neg h7]
                by_cases h8 : c.toNat < 32
                · rw [if_pos h8]
                  show unescapeStep ('\\' :: 'u' :: '0' :: '0' ::
                    hexDigitChar (c.toNat / 16) :: hexDigitChar (c.toNat % 16) :: rest) = _
                  rw [unescapeStep, if_pos rfl, unescapeEsc, if_neg (by decide),
                    if_neg (by decide), if_neg (by decide), if_neg (by decide),
                    if_neg (by decide), if_neg (by decide), if_neg (by decide),
                    if_neg (by decide), if_pos rfl, parseUEscape]
                  rw [show hexVal '0' = some 0 from rfl]
                  rw [hexVal_hexDigitChar (c.toNat / 16) (by omega),
                    hexVal_hexDigitChar (c.toNat % 16) (by omega)]
                  simp only [optionBind_some]
                  rw [if_pos (by omega)]
                  rw [show 0 * 4096 + 0 * 256 + c.toNat / 16 * 16 + c.toNat % 16 = c.toNat
                    from by omega]
                  rw [Char.ofNat_toNat]
                · rw [if_neg h8]
                  show unescapeStep (c :: rest) = _
                  rw [unescapeStep, if_neg h2]

theorem escapeChar_ne_nil (c : Char) : escapeChar c ≠ [] := by
  rw [escapeChar]
  split_ifs <;> simp

theorem escapeChar_head_ne_quote (c d : Char) (ds : List Char)
    (h : escapeChar c = d :: ds) : ¬(d = '"') := by
  rw [escapeChar] at h
  by_cases h1 : c = '"'
  · rw [if_pos h1] at h
    intro hq
    rw [hq] at h
    exact absurd (List.cons_eq_cons.mp h).1.symm (by decide)
  · rw [if_neg h1] at h
    split_ifs at h <;>
      first
        | (intro hq; rw [hq] at h; exact absurd (List.cons_eq_cons.mp h).1.symm (by decide))
        | (intro hq
           have hcd := (List.cons_eq_cons.mp h).1
           rw [hq] at hcd
           exact h1 hcd)

theorem parseStringAux_escape :
    ∀ (cs : List Char) (fuel : Nat), cs.length < fuel → ∀ (rest : List Char),
      parseStringAux fuel (cs.flatMap escapeChar ++ ('"' :: rest)) = some (cs, rest) := by
  intro cs
  induction cs with
  | nil =>
    intro fuel hf rest
    cases fuel with
    | zero => omega
    | succ fuel =>
      show parseStringAux (fuel + 1) ('"' :: rest) = _
      rw [parseStringAux, if_pos rfl]
  | cons c cs ih =>
    intro fuel hf rest
    cases fuel with
    | zero => simp at hf
    | succ fuel =>
      have hflat : (c :: cs).flatMap escapeChar ++ ('"' :: rest) =
          escapeChar c ++ (cs.flatMap escapeChar ++ ('"' :: rest)) := by
        simp [List.flatMap_cons, List.append_assoc]
      obtain ⟨d, ds, hsplit⟩ : ∃ d ds, escapeChar c = d :: ds := by
        cases hh : escapeChar c with
        | nil => exact absurd hh (escapeChar_ne_nil c)
        | cons d ds => exact ⟨d, ds, rfl⟩
      rw [hflat, hsplit, List.cons_append, parseStringAux,
        if_neg (escapeChar_head_ne_quote c d ds hsplit), ← List.cons_append, ← hsplit,
        unescapeStep_escapeChar]
      show (parseStringAux fuel (cs.flatMap escapeChar ++ ('"' :: rest))).map
        (fun p => (c :: p.1, p.2)) = _
      rw [ih fuel (by simpa using hf) rest]
      rfl

theorem escape_length (cs : List Char) (rest : List Char) :
    cs.length < (cs.flatMap escapeChar ++ ('"' :: rest)).length := by
  induction cs with
  | nil => simp
  | cons c cs ih =>
    rw [List.flatMap_cons, List.append_assoc, List.length_append, List.length_cons]
    have h1 : 1 ≤ (escapeChar c).length := by
      cases hh : escapeChar c with
      | nil => exact absurd hh (escapeChar_ne_nil c)
      | cons d ds => simp
    omega

theorem parseStringChars_escape (cs : List Char) (rest : List Char) :
    parseStringChars (cs.flatMap escapeChar ++ ('"' :: rest)) = some (cs, rest) :=
  parseStringAux_escape cs _ (escape_length cs rest) rest

/-! ## JSON round trip: the zookie document -/

theorem parseOptString_encode (o : Option String) (rest : List Char) :
    parseOptString (jsonOptStringChars o ++ rest) = some (o, rest) := by
  cases o with
  | none =>
    unfold jsonOptStringChars parseOptString
    rw [parseLit_append]
  | some s =>
    unfold jsonOptStringChars jsonStringChars parseOptString
    rw [List.cons_append,
      show ("null".data : List Char) = 'n' :: "ull".data from rfl,
      parseLit_ne _ _ _ _ (by decide)]
    show (if ('"' : Char) = '"' then
        (parseStringChars ((s.data.flatMap escapeChar ++ ['"']) ++ rest)).map
          fun p => (some ⟨p.1⟩, p.2)
      else none) = some (some s, rest)
    rw [if_pos rfl, List.append_assoc,
      show (['"'] ++ rest : List Char) = '"' :: rest from rfl,
      parseStringChars_escape]
    rfl

theorem parseMetadata_null (rest : List Char) :
    parseMetadata ("null".data ++ rest) = some (none, rest) := by
  unfold parseMetadata
  rw [parseLit_append]

theorem parseMetadata_some (m : ZookieMetadata) (rest : List Char) :
    parseMetadata (metadataJsonChars m ++ rest) = some (some m, rest) := by
  have hassoc : metadataJsonChars m ++ rest =
      "\x7b\"node_id\":".data ++ (jsonOptStringChars m.node_id ++
        (",\"transaction_id\":".data ++ (jsonOptStringChars m.transaction_id ++
          ("\x7d".data ++ rest)))) := by
    unfold metadataJsonChars
    simp [List.append_assoc]
  have h0 : parseLit ("null".data) (metadataJsonChars m ++ rest) = none := by
    rw [hassoc,
      show ("\x7b\"node_id\":".data : List Char) = '\x7b' :: "\"node_id\":".data from rfl,
      List.cons_append, show ("null".data : List Char) = 'n' :: "ull".data from rfl,
      parseLit_ne _ _ _ _ (by decide)]
  unfold parseMetadata
  rw [h0, hassoc, parseLit_append]
  simp only [optionBind_some]
  rw [parseOptString_encode]
  simp only [optionBind_some]
  rw [parseLit_append]
  simp only [optionBind_some]
  rw [parseOptString_encode]
  simp only [optionBind_some]
  rw [parseLit_append]
  simp only [optionBind_some]

theorem parseZookieChars_encode (z : Zookie) (rest : List Char) :
    parseZookieChars (zookieJsonChars z ++ rest) = some (z, rest) := by
  have hassoc : zookieJsonChars z ++ rest =
      "\x7b\"timestamp_micros\":".data ++ (jsonIntChars z.timestamp_micros ++
        (",\"metadata\":".data ++ ((match z.metadata with
          | none => "null".data
          | some m => metadataJsonChars m) ++ ("\x7d".data ++ rest)))) := by
    unfold zookieJsonChars
    simp [List.append_assoc]
  unfold parseZookieChars
  rw [hassoc, parseLit_append]
  simp only [optionBind_some]
  rw [parseJsonInt_encode _ _ (by
    intro c cs hcc
    have hc : c = ',' := by
      rw [show (",\"metadata\":".data ++ ((match z.metadata with
          | none => "null".data
          | some m => metadataJsonChars m) ++ ("\x7d".data ++ rest)) : List Char) =
        ',' :: ("\"metadata\":".data ++ ((match z.metadata with
          | none => "null".data
          | some m => metadataJsonChars m) ++ ("\x7d".data ++ rest))) from rfl] at hcc
      exact ((List.cons_eq_cons.mp hcc).1).symm
    rw [hc]
    decide)]
  simp only [optionBind_some]
  rw [parseLit_append]
  simp only [optionBind_some]
  cases hm : z.metadata with
  | none =>
    rw [parseMetadata_null]
    simp only [optionBind_some]
    rw [parseLit_append]
    simp only [optionBind_some]
    rw [← hm]
  | some m =>
    rw [parseMetadata_some]
    simp only [optionBind_some]
    rw [parseLit_append]
    simp only [optionBind_some]
    rw [← hm]

/-- C9: the zookie wire format round-trips: decoding the base64 UTF-8 JSON
encoding of any token — any `timestamp_micros`, any metadata, including
metadata strings needing JSON escapes or multi-byte UTF-8 — returns the
original token. -/
theorem c9_zookie_roundtrip (z : Zookie) :
    Zookie.from_string (Zookie.to_string z) = .ok z := by
  unfold Zookie.to_string Zookie.from_string
  rw [show (⟨b64EncodeList (utf8EncodeChars (zookieJsonChars z))⟩ : String).data =
    b64EncodeList (utf8EncodeChars (zookieJsonChars z)) from rfl]
  rw [b64_roundtrip _ (utf8EncodeChars_lt _)]
  show (match utf8Decode (utf8EncodeChars (zookieJsonChars z)) with
    | none => (.error .validation : Except SentinelErrorKind Zookie)
    | some chars =>
      match parseZookieChars chars with
      | some (z, []) => .ok z
      | _ => .error .validation) = .ok z
  rw [utf8_roundtrip]
  show (match parseZookieChars (zookieJsonChars z) with
    | some (z, []) => (.ok z : Except SentinelErrorKind Zookie)
    | _ => .error .validation) = .ok z
  rw [show zookieJsonChars z = zookieJsonChars z ++ [] from by simp,
    parseZookieChars_encode]

/-! ## Claim theorems for the zookie subsystem, orchestrator and batch -/

/-- C5: zookie issuance is NOT strictly monotonic: the token returned by
`generate_zookie` carries the fresh wall-clock reading taken inside
`Zookie::with_metadata`, for every input — the `final_timestamp` computed
from the atomic counter is only logged — so two calls whose clock reads
fall in the same microsecond return equal `timestamp_micros`. -/
theorem c5_generate_not_monotonic :
    (∀ (last now mnow : Int) (node tx : String),
      (generate_zookie last now mnow node tx).zookie.timestamp_micros = mnow) ∧
    (generate_zookie 100 200 200 "node-1" "tx-1").zookie.timestamp_micros = 200 ∧
    (generate_zookie (generate_zookie 100 200 200 "node-1" "tx-1").last_after
      200 200 "node-1" "tx-2").zookie.timestamp_micros = 200 := by
  refine ⟨?_, rfl, rfl⟩
  intro last now mnow node tx
  simp only [generate_zookie]
  by_cases h : (max last now == now) = true
  · rw [if_pos h]; rfl
  · rw [if_neg h]; rfl

/-- C7: refuted as stated: with no token supplied, a freshly generated
token is NOT always returned — `generate_zookie`'s internal
`cache_latest_zookie` write is propagated with `?`, so a failing cache
write fails the whole call with that error instead of returning the
fresh token. -/
theorem c7_counterexample :
    validate_and_get_snapshot_time none 5000000 0 7 9 "n" "t" (.error .cache) =
      .error .cache ∧
    validate_and_get_snapshot_time none 5000000 0 7 9 "n" "t" (.error .cache) ≠
      .ok ((generate_zookie 0 7 9 "n" "t").zookie,
        (generate_zookie 0 7 9 "n" "t").last_after) :=
  ⟨rfl, fun h => Except.noConfusion h⟩

/-- C7 (amended): a supplied token that decodes is rejected with a
validation error when its timestamp is in the future or more than one
hour old, and is otherwise returned unchanged as the snapshot; a token
that fails to decode propagates its validation error; with no token
supplied, a freshly generated token is returned when the generate path's
internal latest-zookie cache write succeeds, and the cache write's error
is returned when it fails. -/
theorem c7_validate_and_get_snapshot_time :
    (∀ (s : String) (e : SentinelErrorKind) (now last gn gm : Int) (ni ti : String)
        (cs : Except SentinelErrorKind Unit),
      Zookie.from_string s = .error e →
      validate_and_get_snapshot_time (some s) now last gn gm ni ti cs = .error e) ∧
    (∀ (s : String) (z : Zookie) (now last gn gm : Int) (ni ti : String)
        (cs : Except SentinelErrorKind Unit),
      Zookie.from_string s = .ok z →
      (z.timestamp_micros > now →
        validate_and_get_snapshot_time (some s) now last gn gm ni ti cs =
          .error .validation) ∧
      (¬z.timestamp_micros > now → now - z.timestamp_micros > max_age_micros →
        validate_and_get_snapshot_time (some s) now last gn gm ni ti cs =
          .error .validation) ∧
      (¬z.timestamp_micros > now → ¬now - z.timestamp_micros > max_age_micros →
        validate_and_get_snapshot_time (some s) now last gn gm ni ti cs =
          .ok (z, last))) ∧
    (∀ (now last gn gm : Int) (ni ti : String),
      validate_and_get_snapshot_time none now last gn gm ni ti (.ok ()) =
        .ok ((generate_zookie last gn gm ni ti).zookie,
          (generate_zookie last gn gm ni ti).last_after)) ∧
    (∀ (now last gn gm : Int) (ni ti : String) (e : SentinelErrorKind),
      validate_and_get_snapshot_time none now last gn gm ni ti (.error e) =
        .error e) := by
  refine ⟨?_, ?_, ?_, ?_⟩
  · intro s e now last gn gm ni ti cs h
    simp only [validate_and_get_snapshot_time, h]
  · intro s z now last gn gm ni ti cs h
    refine ⟨?_, ?_, ?_⟩
    · intro hfut
      simp only [validate_and_get_snapshot_time, h]
      rw [if_pos hfut]
    · intro hfut hstale
      simp only [validate_and_get_snapshot_time, h]
      rw [if_neg hfut, if_pos hstale]
    · intro hfut hstale
      simp only [validate_and_get_snapshot_time, h]
      rw [if_neg hfut, if_neg hstale]
  · intro now last gn gm ni ti
    simp only [validate_and_get_snapshot_time]
  · intro now last gn gm ni ti e
    simp only [validate_and_get_snapshot_time]

/-- Witness for the amended C7: a token stamped 100 µs is rejected at
`now = 50` (future), rejected at `now = 100 + 1 h + 1` (stale), accepted
at `now = 5000000`; with no token the generate path's token is returned
when its cache write succeeds, and the cache error is returned when it
fails. -/
theorem c7_validate_and_get_snapshot_time_witness :
    validate_and_get_snapshot_time (some (Zookie.to_string ⟨100, none⟩)) 50
      0 0 0 "n" "t" (.ok ()) = .error .validation ∧
    validate_and_get_snapshot_time (some (Zookie.to_string ⟨100, none⟩)) 3600000101
      0 0 0 "n" "t" (.ok ()) = .error .validation ∧
    validate_and_get_snapshot_time (some (Zookie.to_string ⟨100, none⟩)) 5000000
      0 0 0 "n" "t" (.ok ()) = .ok (⟨100, none⟩, 0) ∧
    validate_and_get_snapshot_time none 5000000 0 7 9 "n" "t" (.ok ()) =
      .ok ((generate_zookie 0 7 9 "n" "t").zookie,
        (generate_zookie 0 7 9 "n" "t").last_after) ∧
    validate_and_get_snapshot_time none 5000000 0 7 9 "n" "t" (.error .cache) =
      .error .cache := by
  refine ⟨?_, ?_, ?_, ?_, ?_⟩
  · exact (c7_validate_and_get_snapshot_time.2.1 _ ⟨100, none⟩ 50 0 0 0 "n" "t"
      (.ok ()) (by rfl)).1 (by decide)
  · exact (c7_validate_and_get_snapshot_time.2.1 _ ⟨100, none⟩ 3600000101 0 0 0 "n" "t"
      (.ok ()) (by rfl)).2.1 (by decide) (by decide)
  · exact (c7_validate_and_get_snapshot_time.2.1 _ ⟨100, none⟩ 5000000 0 0 0 "n" "t"
      (.ok ()) (by rfl)).2.2 (by decide) (by decide)
  · exact c7_validate_and_get_snapshot_time.2.2.1 5000000 0 7 9 "n" "t"
  · exact c7_validate_and_get_snapshot_time.2.2.2 5000000 0 7 9 "n" "t" .cache

/-- C8: in the check orchestrator a cache-lookup error, a missing entry,
and an unparsable entry are each treated as a miss — the evaluator's
outcome is returned, whatever the post-evaluation cache write does — the
cache-write outcome never changes the response, and an error surfaces only
when the zookie step or the evaluation (tuple store) fails; instantiated
with the embedded evaluator, a non-hit check returns exactly
`check_permission_uncached`. -/
theorem c8_cache_failures_never_fail_check :
    (∀ (z : Zookie) (e : SentinelErrorKind)
        (parse : String → Except SentinelErrorKind CachedCheckResult)
        (ev : Except SentinelErrorKind Bool) (cs : Except SentinelErrorKind Unit),
      check_permission_pipeline (.ok z) (.error e) parse ev cs =
        ev.map fun allowed => ⟨allowed, z.to_string⟩) ∧
    (∀ (z : Zookie) (parse : String → Except SentinelErrorKind CachedCheckResult)
        (ev : Except SentinelErrorKind Bool) (cs : Except SentinelErrorKind Unit),
      check_permission_pipeline (.ok z) (.ok none) parse ev cs =
        ev.map fun allowed => ⟨allowed, z.to_string⟩) ∧
    (∀ (z : Zookie) (j : String) (e : SentinelErrorKind)
        (parse : String → Except SentinelErrorKind CachedCheckResult)
        (ev : Except SentinelErrorKind Bool) (cs : Except SentinelErrorKind Unit),
      parse j = .error e →
      check_permission_pipeline (.ok z) (.ok (some j)) parse ev cs =
        ev.map fun allowed => ⟨allowed, z.to_string⟩) ∧
    (∀ (snap : Except SentinelErrorKind Zookie)
        (cg : Except SentinelErrorKind (Option String))
        (parse : String → Except SentinelErrorKind CachedCheckResult)
        (ev : Except SentinelErrorKind Bool) (cs cs' : Except SentinelErrorKind Unit),
      check_permission_pipeline snap cg parse ev cs =
        check_permission_pipeline snap cg parse ev cs') ∧
    (∀ (snap : Except SentinelErrorKind Zookie)
        (cg : Except SentinelErrorKind (Option String))
        (parse : String → Except SentinelErrorKind CachedCheckResult)
        (ev : Except SentinelErrorKind Bool) (cs : Except SentinelErrorKind Unit)
        (e : SentinelErrorKind),
      check_permission_pipeline snap cg parse ev cs = .error e →
      snap = .error e ∨ ev = .error e) ∧
    (∀ (store : List RelationTuple) (request : CheckRequest) (z : Zookie)
        (parse : String → Except SentinelErrorKind CachedCheckResult)
        (cs : Except SentinelErrorKind Unit),
      check_permission store request (.ok z) (.ok none) parse cs =
        .ok ⟨check_permission_uncached store request, z.to_string⟩) := by
  refine ⟨?_, ?_, ?_, ?_, ?_, ?_⟩
  · intro z e parse ev cs
    cases ev <;> cases cs <;> rfl
  · intro z parse ev cs
    cases ev <;> cases cs <;> rfl
  · intro z j e parse ev cs h
    simp only [check_permission_pipeline, h]
    cases ev <;> cases cs <;> rfl
  · intro snap cg parse ev cs cs'
    cases snap with
    | error e => rfl
    | ok z =>
      cases cg with
      | error e => cases ev <;> cases cs <;> cases cs' <;> rfl
      | ok o =>
        cases o with
        | none => cases ev <;> cases cs <;> cases cs' <;> rfl
        | some j =>
          simp only [check_permission_pipeline]
          cases parse j <;> cases ev <;> cases cs <;> cases cs' <;> rfl
  · intro snap cg parse ev cs e h
    cases snap with
    | error e2 =>
      left
      simp only [check_permission_pipeline] at h
      cases h
      rfl
    | ok z =>
      right
      cases cg with
      | error e2 =>
        cases ev with
        | error e3 =>
          cases cs <;> simp only [check_permission_pipeline] at h <;>
            cases h <;> rfl
        | ok b => cases cs <;> simp [check_permission_pipeline] at h
      | ok o =>
        cases o with
        | none =>
          cases ev with
          | error e3 =>
            cases cs <;> simp only [check_permission_pipeline] at h <;>
              cases h <;> rfl
          | ok b => cases cs <;> simp [check_permission_pipeline] at h
        | some j =>
          simp only [check_permission_pipeline] at h
          cases hp : parse j with
          | ok r => rw [hp] at h; simp at h
          | error e2 =>
            rw [hp] at h
            cases ev with
            | error e3 => cases cs <;> cases h <;> rfl
            | ok b => cases cs <;> simp at h
  · intro store request z parse cs
    cases cs <;> rfl

/-- Witness for C8: a failing cache lookup and an unparsable hit payload
both fall back to the evaluator's answer. -/
theorem c8_cache_failures_never_fail_check_witness :
    check_permission_pipeline (.ok ⟨100, none⟩) (.error .cache)
      (fun _ => .error .internal) (.ok true) (.error .cache) =
      .ok ⟨true, Zookie.to_string ⟨100, none⟩⟩ ∧
    check_permission_pipeline (.ok ⟨100, none⟩) (.ok (some "bad json"))
      (fun _ => .error .internal) (.ok false) (.ok ()) =
      .ok ⟨false, Zookie.to_string ⟨100, none⟩⟩ := by
  constructor
  · exact c8_cache_failures_never_fail_check.1 ⟨100, none⟩ .cache
      (fun _ => .error .internal) (.ok true) (.error .cache)
  · exact c8_cache_failures_never_fail_check.2.2.1 ⟨100, none⟩ "bad json" .internal
      (fun _ => .error .internal) (.ok false) (.ok ()) rfl

/-- C6: the batch evaluator does NOT share a single snapshot: the batch
zookie is validated once for the response token, but every unique
sub-check runs the whole `check_permission` pipeline, which performs its
own snapshot selection from the sub-request's `zookie` field.  With a
batch token stamped 200 µs and one sub-check carrying its own token
stamped 100 µs, two snapshots are selected and the branch evaluates
against 100 µs, not the batch's 200 µs. -/
theorem c6_batch_selects_snapshot_per_subcheck :
    batch_check_permissions []
      [⟨"documents", "doc1", "viewer", "alice", some "user",
        some (Zookie.to_string ⟨100, none⟩)⟩]
      (some (Zookie.to_string ⟨200, none⟩)) 5000000 0 0 0 "n" "t" (.ok ()) =
      .ok ([⟨0, false, "documents:doc1#viewer@alice"⟩],
        Zookie.to_string ⟨200, none⟩,
        [⟨200, none⟩, ⟨100, none⟩]) ∧
    (⟨100, none⟩ : Zookie) ≠ (⟨200, none⟩ : Zookie) := by
  constructor
  · rfl
  · decide

end Sentinel
